import Mathlib

/-!
SmartRewards payout schedule, `src/smartrewards/rewardspayments.cpp`.

A shallow embedding of `SmartRewardPayments::GetPaymentsForBlock`,
`SmartRewardPayments::FillPayments` and `SmartRewardPayments::Validate`,
followed by the properties proved of them.

Modelling conventions:

* Everything the functions read from their surroundings (the spork value, the
  network predicates, the constants of the headers, the rewards database) is a
  field of `Env`, which is passed explicitly.
* A C++ function that returns a list and writes its verdict through a
  reference parameter returns the pair here. A reference parameter that is
  assigned before it is read (`result`, `smartReward`) is a result only; one
  that is read or extended (`coinbaseTx`, `voutSmartRewards`) is an argument
  as well.
* Integer variables (`int`, `int64_t`, `size_t`) are integers of `ℤ`; `/` and
  `%` of the source are truncating (`Int.tdiv`, `Int.tmod`). The source
  computes exactly these values as long as every intermediate result fits the
  C++ type that holds it, `nPayoutsPerBlock ≥ 1` and `nPayoutInterval ≥ 1`.
* `std::sort` with `operator<` of the payee type is the sorted permutation of
  its input. The payee order lives in `smartrewards/rewards.h`; it is a
  parameter here, a linear order as the data model asks for, and for a linear
  order the sorted permutation is unique (`sorted_perm_unique` below).
-/

set_option linter.unusedVariables false

namespace SmartRewardPayments

/-- The verdicts of `SmartRewardPayments::Result` that the source uses. -/
inductive Result where
  | Valid
  | NoRewardBlock
  | DatabaseError
  | InvalidRewardList
  | NotSynced
  deriving DecidableEq, Repr

/-- A script (`CScript`): its bytes. -/
abbrev CScript := List Nat

/-- Modelled from the spec: `CSmartRewardSnapshot` of `smartrewards/rewards.h`,
one payout entry. `id` stands for the payee identity through the script
`id.GetScript()` it pays to; `reward` is the amount in the smallest currency
unit, an integer that is never negative (data model, "RewardPayee"). -/
structure CSmartRewardSnapshot where
  id : CScript
  reward : Nat
  deriving DecidableEq, Repr

/-- The list type `CSmartRewardSnapshotList`. -/
abbrev CSmartRewardSnapshotList := List CSmartRewardSnapshot

/-- The fields of `CSmartRewardRound` that the source reads. -/
structure CSmartRewardRound where
  number : Int
  endBlockHeight : Int
  eligibleEntries : Int
  disqualifiedEntries : Int
  deriving DecidableEq, Repr

/-- A transaction output `CTxOut(nValue, scriptPubKey)`. -/
structure CTxOut where
  nValue : Int
  scriptPubKey : CScript
  deriving DecidableEq, Repr

/-- A transaction, through its output list `vout`. -/
structure CTransaction where
  vout : List CTxOut
  deriving DecidableEq, Repr

/-- A block: its time (`GetBlockTime()`) and its transactions, coinbase first. -/
structure CBlock where
  nTime : Int
  vtx : List CTransaction
  deriving DecidableEq, Repr

/-- What the functions read from outside: the spork value
`sporkManager.GetSporkValue(SPORK_15_SMARTREWARDS_BLOCKS_ENABLED)`, the network
predicates `MainNet()` and `TestNet()`, the constants of the headers, and the
rewards database `prewards` (`GetLastRound`, and `GetRewardPayouts`, whose
boolean is the call's return value and whose list is what it stored in
`roundPayments`). -/
structure Env where
  sporkValue : Int
  MainNet : Bool
  TestNet : Bool
  HF_V1_2_SMARTREWARD_HEIGHT : Int
  nRewardsBlocksPerRound : Int
  nFirstRoundEndBlock_Testnet : Int
  nRewardPayoutStartDelay : Int
  nRewardPayoutStartDelay_Testnet : Int
  nRewardPayoutsPerBlock : Int
  nRewardPayoutBlockInterval : Int
  nRewardPayoutsPerBlock_1_Testnet : Int
  nRewardPayoutBlockInterval_1_Testnet : Int
  nRewardPayoutsPerBlock_2_Testnet : Int
  nRewardPayoutBlockInterval_2_Testnet : Int
  GetLastRound : CSmartRewardRound
  GetRewardPayouts : Int → Bool × CSmartRewardSnapshotList

/-- Line 23: the height is above the spork value, rewards are disabled. -/
def sporkDisabled (E : Env) (nHeight : Int) : Bool :=
  decide (nHeight > E.sporkValue)

/-- Lines 30-31: the height is before the first payout of the network. -/
def beforeActivation (E : Env) (nHeight : Int) : Bool :=
  (E.MainNet && decide (nHeight < E.HF_V1_2_SMARTREWARD_HEIGHT + E.nRewardsBlocksPerRound)) ||
  (E.TestNet && decide (nHeight < E.nFirstRoundEndBlock_Testnet))

/-- Line 52: `delay`. -/
def delay (E : Env) : Int :=
  if E.MainNet then E.nRewardPayoutStartDelay else E.nRewardPayoutStartDelay_Testnet

/-- Lines 56-67: `nPayoutsPerBlock` for the round. -/
def nPayoutsPerBlock (E : Env) (round : CSmartRewardRound) : Int :=
  if E.TestNet then
    if round.number < 68 then E.nRewardPayoutsPerBlock_1_Testnet
    else E.nRewardPayoutsPerBlock_2_Testnet
  else E.nRewardPayoutsPerBlock

/-- Lines 56-67: `nPayoutInterval` for the round. -/
def nPayoutInterval (E : Env) (round : CSmartRewardRound) : Int :=
  if E.TestNet then
    if round.number < 68 then E.nRewardPayoutBlockInterval_1_Testnet
    else E.nRewardPayoutBlockInterval_2_Testnet
  else E.nRewardPayoutBlockInterval

/-- Line 94: `std::sort(roundPayments.begin(), roundPayments.end())`. -/
def sortPayments [LinearOrder CSmartRewardSnapshot]
    (roundPayments : CSmartRewardSnapshotList) : CSmartRewardSnapshotList :=
  roundPayments.insertionSort (· ≤ ·)

/-- Line 119: the sub-vector `[begin + startIndex, begin + endIndex)`. -/
def subVector (v : CSmartRewardSnapshotList) (startIndex endIndex : Int) :
    CSmartRewardSnapshotList :=
  (v.take endIndex.toNat).drop startIndex.toNat

/-- Lines 76-119: the body run once the window is open and the round is not
degenerate. -/
def paymentsInWindow [LinearOrder CSmartRewardSnapshot] (E : Env)
    (round : CSmartRewardRound) (nHeight : Int) : CSmartRewardSnapshotList × Result :=
  let nPayoutsPerBlock := nPayoutsPerBlock E round
  let nPayoutInterval := nPayoutInterval E round
  let eligibleEntries : Int := round.eligibleEntries - round.disqualifiedEntries
  let rewardBlocks : Int :=
    if eligibleEntries.tmod nPayoutsPerBlock ≠ 0 then eligibleEntries.tdiv nPayoutsPerBlock + 1
    else eligibleEntries.tdiv nPayoutsPerBlock
  let lastRoundBlock : Int :=
    round.endBlockHeight + delay E + (rewardBlocks - 1) * nPayoutInterval
  if nHeight ≤ lastRoundBlock ∧ (lastRoundBlock - nHeight).tmod nPayoutInterval = 0 then
    let fetched := E.GetRewardPayouts round.number
    if fetched.1 = false ∨ (fetched.2.length : Int) ≠ eligibleEntries then
      ([], Result.DatabaseError)
    else
      let roundPayments := sortPayments fetched.2
      let rewardBlock : Int := rewardBlocks - (lastRoundBlock - nHeight).tdiv nPayoutInterval
      let blockPayees : Int :=
        if rewardBlock = rewardBlocks ∧ eligibleEntries.tmod nPayoutsPerBlock ≠ 0 then
          eligibleEntries.tmod nPayoutsPerBlock
        else nPayoutsPerBlock
      let startIndex : Int := (rewardBlock - 1) * nPayoutsPerBlock
      let endIndex : Int := startIndex + blockPayees
      if endIndex > (roundPayments.length : Int) then
        ([], Result.DatabaseError)
      else
        (subVector roundPayments startIndex endIndex, Result.Valid)
  else
    ([], Result.NoRewardBlock)

/-- The function `SmartRewardPayments::GetPaymentsForBlock(nHeight, blockTime, result)`:
the returned list and the value left in `result`. -/
def GetPaymentsForBlock [LinearOrder CSmartRewardSnapshot] (E : Env)
    (nHeight : Int) (blockTime : Int) : CSmartRewardSnapshotList × Result :=
  if sporkDisabled E nHeight then ([], Result.NoRewardBlock)
  else if beforeActivation E nHeight then ([], Result.NoRewardBlock)
  else
    let round := E.GetLastRound
    if round.number = 0 then ([], Result.NoRewardBlock)
    else if nHeight ≥ round.endBlockHeight + delay E then
      if round.eligibleEntries = round.disqualifiedEntries ∨
          round.disqualifiedEntries > round.eligibleEntries then
        ([], Result.NoRewardBlock)
      else paymentsInWindow E round nHeight
    else ([], Result.NoRewardBlock)

/-- Line 171: the predicate of `std::find_if`, is `txout` a payment of `payout`.
`abs` is the absolute value at the type of the amounts. -/
def isPaymentOf (payout : CSmartRewardSnapshot) (txout : CTxOut) : Bool :=
  decide (payout.id = txout.scriptPubKey) &&
  decide (((payout.reward : Int) - txout.nValue).natAbs < 1000)

/-- Lines 167-182: one pass of the loop body over `payout`, on the pair
`(result, smartReward)`. -/
def validateStep (vout : List CTxOut) (acc : Result × Int)
    (payout : CSmartRewardSnapshot) : Result × Int :=
  if payout.reward = 0 then acc
  else
    match vout.find? (isPaymentOf payout) with
    | none => (Result.InvalidRewardList, acc.2)
    | some isInOutputs => (acc.1, acc.2 + isInOutputs.nValue)

/-- Line 157: the outputs of `block.vtx[0]`; a block without transactions has
none. -/
def coinbaseOutputs (block : CBlock) : List CTxOut :=
  match block.vtx with
  | [] => []
  | txCoinbase :: _ => txCoinbase.vout

/-- The function `SmartRewardPayments::Validate(block, nHeight, smartReward)`:
the returned verdict and the value left in `smartReward`. -/
def Validate [LinearOrder CSmartRewardSnapshot] (E : Env) (block : CBlock)
    (nHeight : Int) : Result × Int :=
  let got := GetPaymentsForBlock E nHeight block.nTime
  let rewards := got.1
  let result := got.2
  if result = Result.Valid ∧ rewards.length ≠ 0 then
    rewards.foldl (validateStep (coinbaseOutputs block)) (result, 0)
  else if result = Result.NotSynced ∨ result = Result.NoRewardBlock then
    (Result.Valid, 0)
  else (result, 0)

/-- A transaction under construction (`CMutableTransaction`), through its
output list `vout`. -/
structure CMutableTransaction where
  vout : List CTxOut
  deriving DecidableEq, Repr

/-- Lines 141-145: one pass of the loop body of `FillPayments` over `s`, on
the pair `(coinbaseTx, voutSmartRewards)`. -/
def fillStep (acc : CMutableTransaction × List CTxOut) (s : CSmartRewardSnapshot) :
    CMutableTransaction × List CTxOut :=
  if s.reward > 0 then
    let out : CTxOut := ⟨(s.reward : Int), s.id⟩
    (⟨acc.1.vout ++ [out]⟩, acc.2 ++ [out])
  else acc

/-- The function
`SmartRewardPayments::FillPayments(coinbaseTx, nHeight, prevBlockTime, voutSmartRewards)`:
the values left in the two reference parameters `coinbaseTx` and
`voutSmartRewards`, from their values on entry. -/
def FillPayments [LinearOrder CSmartRewardSnapshot] (E : Env)
    (coinbaseTx : CMutableTransaction) (nHeight : Int) (prevBlockTime : Int)
    (voutSmartRewards : List CTxOut) : CMutableTransaction × List CTxOut :=
  let got := GetPaymentsForBlock E nHeight prevBlockTime
  let rewards := got.1
  let result := got.2
  if result = Result.Valid ∧ rewards.length ≠ 0 then
    rewards.foldl fillStep (coinbaseTx, voutSmartRewards)
  else (coinbaseTx, voutSmartRewards)

/-- Lines 78-80: `rewardBlocks`. -/
def rewardBlocks (E : Env) (round : CSmartRewardRound) : Int :=
  if (round.eligibleEntries - round.disqualifiedEntries).tmod (nPayoutsPerBlock E round) ≠ 0
  then (round.eligibleEntries - round.disqualifiedEntries).tdiv (nPayoutsPerBlock E round) + 1
  else (round.eligibleEntries - round.disqualifiedEntries).tdiv (nPayoutsPerBlock E round)

/-- Line 82: `lastRoundBlock`. -/
def lastRoundBlock (E : Env) (round : CSmartRewardRound) : Int :=
  round.endBlockHeight + delay E + (rewardBlocks E round - 1) * nPayoutInterval E round

/-- Line 84: the height test. -/
def heightTest (E : Env) (round : CSmartRewardRound) (nHeight : Int) : Prop :=
  nHeight ≤ lastRoundBlock E round ∧
  (lastRoundBlock E round - nHeight).tmod (nPayoutInterval E round) = 0

instance (E : Env) (round : CSmartRewardRound) (nHeight : Int) :
    Decidable (heightTest E round nHeight) := by
  unfold heightTest; infer_instance

/-- Line 97: `rewardBlock`. -/
def rewardBlock (E : Env) (round : CSmartRewardRound) (nHeight : Int) : Int :=
  rewardBlocks E round - (lastRoundBlock E round - nHeight).tdiv (nPayoutInterval E round)

/-- Lines 98-105: `blockPayees`. -/
def blockPayees (E : Env) (round : CSmartRewardRound) (nHeight : Int) : Int :=
  if rewardBlock E round nHeight = rewardBlocks E round ∧
      (round.eligibleEntries - round.disqualifiedEntries).tmod (nPayoutsPerBlock E round) ≠ 0
  then (round.eligibleEntries - round.disqualifiedEntries).tmod (nPayoutsPerBlock E round)
  else nPayoutsPerBlock E round

/-- Line 108: `startIndex`. -/
def startIndex (E : Env) (round : CSmartRewardRound) (nHeight : Int) : Int :=
  (rewardBlock E round nHeight - 1) * nPayoutsPerBlock E round

/-- Line 110: `endIndex`. -/
def endIndex (E : Env) (round : CSmartRewardRound) (nHeight : Int) : Int :=
  startIndex E round nHeight + blockPayees E round nHeight

/-! Quantities the statements below are written in. -/

/-- The payable count of a round, `eligibleEntries - disqualifiedEntries`. -/
def payableEntries (round : CSmartRewardRound) : Int :=
  round.eligibleEntries - round.disqualifiedEntries

/-- The number of payout blocks for `payable` payees at `perBlock` a block:
the quotient, and one more when the remainder is not zero. -/
def blocksNeeded (payable perBlock : Int) : Int :=
  payable / perBlock + (if payable % perBlock = 0 then 0 else 1)

/-- The height at which the payout window of the latest round opens. -/
def firstPayoutHeight (E : Env) : Int :=
  E.GetLastRound.endBlockHeight + delay E

/-- The height of the final payout block of the latest round. -/
def lastPayoutHeight (E : Env) : Int :=
  firstPayoutHeight E +
    (blocksNeeded (payableEntries E.GetLastRound) (nPayoutsPerBlock E E.GetLastRound) - 1) *
      nPayoutInterval E E.GetLastRound

/-- The payout height number `i` of the latest round, counted from 1:
`firstPayoutHeight + (i - 1) * nPayoutInterval`. -/
def payoutHeight (E : Env) (i : Nat) : Int :=
  firstPayoutHeight E + ((i : Int) - 1) * nPayoutInterval E E.GetLastRound

/-- The first output of `vout`, in coinbase order, that carries the script of
`s` and an amount less than 1000 away from the reward of `s`. -/
def firstMatchingOutput (vout : List CTxOut) (s : CSmartRewardSnapshot) : Option CTxOut :=
  vout.find? (fun o => decide (o.scriptPubKey = s.id ∧ |(s.reward : Int) - o.nValue| < 1000))

/-- What the payee `s` adds to the verified amount: nothing when its reward is
0 or no output matches, else the amount of its first matching output. -/
def verifiedFor (vout : List CTxOut) (s : CSmartRewardSnapshot) : Int :=
  if 0 < s.reward then
    match firstMatchingOutput vout s with
    | some o => o.nValue
    | none => 0
  else 0

/-- The outputs `FillPayments` is to append for a slice: one `(reward, script)`
for each payee with a reward above 0, in slice order. -/
def rewardOutputs (slice : CSmartRewardSnapshotList) : List CTxOut :=
  (slice.filter (fun s => decide (0 < s.reward))).map (fun s => ⟨(s.reward : Int), s.id⟩)

/-- The height is enabled by the spork and not before the activation height
of the network. -/
def enabledAt (E : Env) (nHeight : Int) : Prop :=
  nHeight ≤ E.sporkValue ∧
  ¬ (E.MainNet = true ∧ nHeight < E.HF_V1_2_SMARTREWARD_HEIGHT + E.nRewardsBlocksPerRound) ∧
  ¬ (E.TestNet = true ∧ nHeight < E.nFirstRoundEndBlock_Testnet)

instance (E : Env) (nHeight : Int) : Decidable (enabledAt E nHeight) := by
  unfold enabledAt; infer_instance

/-! A concrete payee order and concrete environments, used to instantiate the
theorems. -/

/-- The key of the sample order: script bytes first, then the reward. -/
def snapshotKey (s : CSmartRewardSnapshot) : Lex (CScript × Nat) :=
  toLex (s.id, s.reward)

/-- A sample payee order: lexicographic on the script bytes, then the reward. -/
def orderByScript : LinearOrder CSmartRewardSnapshot :=
  LinearOrder.lift' snapshotKey (by
    intro a b h
    cases a; cases b
    simp only [snapshotKey, EmbeddingLike.apply_eq_iff_eq, Prod.mk.injEq] at h
    simp [h.1, h.2])

/-- Ten payees, stored out of order. -/
def samplePayees : CSmartRewardSnapshotList :=
  [⟨[7], 70⟩, ⟨[3], 30⟩, ⟨[9], 90⟩, ⟨[1], 10⟩, ⟨[5], 50⟩,
   ⟨[2], 20⟩, ⟨[8], 0⟩, ⟨[4], 40⟩, ⟨[10], 100⟩, ⟨[6], 60⟩]

/-- A main-net node: activation at height 150, round 7 closed at height 200
with 10 eligible and no disqualified entries, start delay 20, 3 payouts a
block, every 2 blocks. Its payout heights are 220, 222, 224 and 226. -/
def sampleEnv : Env where
  sporkValue := 1000000
  MainNet := true
  TestNet := false
  HF_V1_2_SMARTREWARD_HEIGHT := 100
  nRewardsBlocksPerRound := 50
  nFirstRoundEndBlock_Testnet := 0
  nRewardPayoutStartDelay := 20
  nRewardPayoutStartDelay_Testnet := 10
  nRewardPayoutsPerBlock := 3
  nRewardPayoutBlockInterval := 2
  nRewardPayoutsPerBlock_1_Testnet := 2
  nRewardPayoutBlockInterval_1_Testnet := 1
  nRewardPayoutsPerBlock_2_Testnet := 5
  nRewardPayoutBlockInterval_2_Testnet := 4
  GetLastRound := ⟨7, 200, 10, 0⟩
  GetRewardPayouts := fun _ => (true, samplePayees)

/-- The node `sampleEnv` after every entry of the round was disqualified. -/
def degenerateEnv : Env :=
  { sampleEnv with GetLastRound := ⟨7, 200, 10, 10⟩ }

/-- The node `sampleEnv` with a database that lost one payee of the round. -/
def brokenEnv : Env :=
  { sampleEnv with GetRewardPayouts := fun _ => (true, samplePayees.tail) }

/-- A block at height 222 of `sampleEnv`, whose slice is the payees with
scripts 4, 5 and 6: the coinbase pays the first and the last of them. -/
def blockMissingOne : CBlock :=
  ⟨0, [⟨[⟨40, [4]⟩, ⟨60, [6]⟩]⟩]⟩

/-- A block at height 226 of `sampleEnv`, whose slice is the payee with
script 10 and reward 100: the coinbase pays 1000 more. -/
def blockOver1000 : CBlock :=
  ⟨0, [⟨[⟨1100, [10]⟩]⟩]⟩

/-- As `blockOver1000`, with a coinbase that pays 1000 less. -/
def blockUnder1000 : CBlock :=
  ⟨0, [⟨[⟨-900, [10]⟩]⟩]⟩

/-- As `blockOver1000`, with a coinbase that pays 999 more. -/
def blockOver999 : CBlock :=
  ⟨0, [⟨[⟨1099, [10]⟩]⟩]⟩

/-- A block at height 222 of `sampleEnv`, whose slice is the payees with
scripts 4, 5 and 6 and rewards 40, 50 and 60: the coinbase pays 1039 to the
first, nothing to the second and 60 to the third. -/
def blockPaysMore : CBlock :=
  ⟨0, [⟨[⟨1039, [4]⟩, ⟨60, [6]⟩]⟩]⟩

/-! Integer arithmetic of the source. -/

theorem tdiv_eq_ediv_of_nonneg (a b : Int) (ha : 0 ≤ a) : a.tdiv b = a / b := by
  rcases le_total 0 b with hb | hb
  · exact Int.tdiv_eq_ediv ha hb
  · obtain ⟨c, rfl⟩ : ∃ c, b = -c := ⟨-b, by simp⟩
    have hc : 0 ≤ c := by omega
    rw [Int.tdiv_neg, Int.ediv_neg, Int.tdiv_eq_ediv ha hc]

theorem tmod_eq_emod_of_nonneg (a b : Int) (ha : 0 ≤ a) : a.tmod b = a % b := by
  rcases le_total 0 b with hb | hb
  · exact Int.tmod_eq_emod ha hb
  · obtain ⟨c, rfl⟩ : ∃ c, b = -c := ⟨-b, by simp⟩
    have hc : 0 ≤ c := by omega
    rw [Int.tmod_neg, Int.emod_neg, Int.tmod_eq_emod ha hc]

/-- The block count computed at lines 78-80 is `blocksNeeded`. -/
theorem rewardBlocks_eq (n p : Int) (hn : 0 ≤ n) :
    (if n.tmod p ≠ 0 then n.tdiv p + 1 else n.tdiv p) = blocksNeeded n p := by
  rw [tdiv_eq_ediv_of_nonneg n p hn, tmod_eq_emod_of_nonneg n p hn]
  unfold blocksNeeded
  split_ifs <;> omega

/-- With `B = blocksNeeded n p` blocks, the first `B - 1` blocks leave at
least one payee and `B` blocks hold them all. -/
theorem blocksNeeded_bounds (n p : Int) (hn : 1 ≤ n) (hp : 1 ≤ p) :
    1 ≤ blocksNeeded n p ∧ (blocksNeeded n p - 1) * p < n ∧ n ≤ blocksNeeded n p * p ∧
    (n % p = 0 → n = blocksNeeded n p * p) ∧
    (n % p ≠ 0 → n = (blocksNeeded n p - 1) * p + n % p) := by
  have h1 := Int.ediv_add_emod n p
  have h2 := Int.emod_nonneg n (show p ≠ 0 by omega)
  have h3 := Int.emod_lt_of_pos n (show 0 < p by omega)
  have h4 : 0 ≤ n / p := Int.ediv_nonneg (by omega) (by omega)
  unfold blocksNeeded
  split_ifs with hr
  · simp only [add_zero]
    rw [hr] at h1
    have hq : 1 ≤ n / p := by
      by_contra hlt
      have : n / p = 0 := by omega
      rw [this] at h1; omega
    refine ⟨hq, ?_, ?_, ?_, ?_⟩
    · nlinarith
    · nlinarith
    · intro _; nlinarith
    · intro h; exact absurd hr h
  · have h5 : 1 ≤ n % p := by omega
    refine ⟨by omega, ?_, ?_, ?_, ?_⟩
    · have : n / p + 1 - 1 = n / p := by ring
      rw [this]; nlinarith
    · nlinarith
    · intro h; exact absurd h hr
    · intro _
      have : n / p + 1 - 1 = n / p := by ring
      rw [this]; nlinarith

/-- The block count is the ceiling of the quotient. -/
theorem blocksNeeded_eq_ceil (n p : Int) (hp : 1 ≤ p) :
    blocksNeeded n p = ⌈(n : ℚ) / (p : ℚ)⌉ := by
  unfold blocksNeeded
  symm
  rw [Int.ceil_eq_iff]
  have h1 := Int.ediv_add_emod n p
  have h2 := Int.emod_nonneg n (show p ≠ 0 by omega)
  have h3 := Int.emod_lt_of_pos n (show 0 < p by omega)
  have hpq : (0 : ℚ) < p := by exact_mod_cast (show (0 : Int) < p by omega)
  have hnq : (n : ℚ) = p * ((n / p : Int) : ℚ) + ((n % p : Int) : ℚ) := by
    exact_mod_cast h1.symm
  have h2q : (0 : ℚ) ≤ ((n % p : Int) : ℚ) := by exact_mod_cast h2
  have h3q : ((n % p : Int) : ℚ) < p := by exact_mod_cast h3
  split_ifs with hr
  · rw [hr] at hnq
    push_cast
    constructor
    · rw [lt_div_iff₀ hpq]; nlinarith
    · rw [div_le_iff₀ hpq]; nlinarith
  · have h5 : (1 : ℚ) ≤ ((n % p : Int) : ℚ) := by
      exact_mod_cast (show 1 ≤ n % p by omega)
    push_cast
    constructor
    · rw [lt_div_iff₀ hpq]; nlinarith
    · rw [div_le_iff₀ hpq]; nlinarith

/-! The sort. -/

theorem length_sortPayments [LinearOrder CSmartRewardSnapshot]
    (l : CSmartRewardSnapshotList) : (sortPayments l).length = l.length :=
  List.length_insertionSort _ _

theorem perm_sortPayments [LinearOrder CSmartRewardSnapshot]
    (l : CSmartRewardSnapshotList) : (sortPayments l).Perm l :=
  List.perm_insertionSort _ _

theorem sorted_sortPayments [LinearOrder CSmartRewardSnapshot]
    (l : CSmartRewardSnapshotList) : (sortPayments l).Sorted (· ≤ ·) :=
  List.sorted_insertionSort _ _

/-- Whatever algorithm `std::sort` runs, its result is `sortPayments`: a list
that is sorted and a permutation of the input is the only such list. -/
theorem sorted_perm_unique [LinearOrder CSmartRewardSnapshot]
    (l out : CSmartRewardSnapshotList) (hperm : out.Perm l) (hsorted : out.Sorted (· ≤ ·)) :
    out = sortPayments l :=
  List.eq_of_perm_of_sorted (hperm.trans (perm_sortPayments l).symm) hsorted
    (sorted_sortPayments l)

/-- The sorted list does not depend on the order in which the payees were
stored. -/
theorem sortPayments_perm [LinearOrder CSmartRewardSnapshot]
    (l₁ l₂ : CSmartRewardSnapshotList) (h : l₁.Perm l₂) :
    sortPayments l₁ = sortPayments l₂ :=
  sorted_perm_unique l₂ (sortPayments l₁) ((perm_sortPayments l₁).trans h)
    (sorted_sortPayments l₁)

/-! Early exits. -/

theorem getPayments_of_disabled [LinearOrder CSmartRewardSnapshot] (E : Env)
    (nHeight blockTime : Int) (h : nHeight > E.sporkValue) :
    GetPaymentsForBlock E nHeight blockTime = ([], Result.NoRewardBlock) := by
  simp [GetPaymentsForBlock, sporkDisabled, h]

theorem getPayments_of_beforeActivation [LinearOrder CSmartRewardSnapshot] (E : Env)
    (nHeight blockTime : Int)
    (h : (E.MainNet = true ∧
            nHeight < E.HF_V1_2_SMARTREWARD_HEIGHT + E.nRewardsBlocksPerRound) ∨
         (E.TestNet = true ∧ nHeight < E.nFirstRoundEndBlock_Testnet)) :
    GetPaymentsForBlock E nHeight blockTime = ([], Result.NoRewardBlock) := by
  have hb : beforeActivation E nHeight = true := by
    simpa [beforeActivation] using h
  unfold GetPaymentsForBlock
  split
  · rfl
  · simp [hb]

theorem getPayments_of_noRound [LinearOrder CSmartRewardSnapshot] (E : Env)
    (nHeight blockTime : Int) (h : E.GetLastRound.number = 0) :
    GetPaymentsForBlock E nHeight blockTime = ([], Result.NoRewardBlock) := by
  unfold GetPaymentsForBlock
  split
  · rfl
  · split
    · rfl
    · simp [h]

theorem getPayments_of_windowClosed [LinearOrder CSmartRewardSnapshot] (E : Env)
    (nHeight blockTime : Int) (h : nHeight < E.GetLastRound.endBlockHeight + delay E) :
    GetPaymentsForBlock E nHeight blockTime = ([], Result.NoRewardBlock) := by
  unfold GetPaymentsForBlock
  split
  · rfl
  · split
    · rfl
    · have h' : ¬ nHeight ≥ E.GetLastRound.endBlockHeight + delay E := by omega
      simp only [h', if_false]
      split <;> rfl

theorem getPayments_of_degenerate [LinearOrder CSmartRewardSnapshot] (E : Env)
    (nHeight blockTime : Int)
    (h : E.GetLastRound.eligibleEntries = E.GetLastRound.disqualifiedEntries ∨
         E.GetLastRound.disqualifiedEntries > E.GetLastRound.eligibleEntries) :
    GetPaymentsForBlock E nHeight blockTime = ([], Result.NoRewardBlock) := by
  unfold GetPaymentsForBlock
  split
  · rfl
  · split
    · rfl
    · simp only []
      split
      · rfl
      · split
        · simp only [h, if_true]
        · rfl

/-- Past the early exits the function is the window body. -/
theorem getPayments_eq_paymentsInWindow [LinearOrder CSmartRewardSnapshot] (E : Env)
    (nHeight blockTime : Int) (hen : enabledAt E nHeight)
    (hnum : E.GetLastRound.number ≠ 0)
    (hopen : E.GetLastRound.endBlockHeight + delay E ≤ nHeight)
    (hdeg : E.GetLastRound.disqualifiedEntries < E.GetLastRound.eligibleEntries) :
    GetPaymentsForBlock E nHeight blockTime = paymentsInWindow E E.GetLastRound nHeight := by
  obtain ⟨h1, h2, h3⟩ := hen
  have hs : sporkDisabled E nHeight = false := by
    simp [sporkDisabled]; omega
  have hb : beforeActivation E nHeight = false := by
    simp only [beforeActivation, Bool.or_eq_false_iff, Bool.and_eq_false_iff,
      decide_eq_false_iff_not]
    constructor
    · by_cases hm : E.MainNet = true
      · right; intro hlt; exact h2 ⟨hm, hlt⟩
      · left; simpa using hm
    · by_cases hm : E.TestNet = true
      · right; intro hlt; exact h3 ⟨hm, hlt⟩
      · left; simpa using hm
  have hd : ¬ (E.GetLastRound.eligibleEntries = E.GetLastRound.disqualifiedEntries ∨
      E.GetLastRound.disqualifiedEntries > E.GetLastRound.eligibleEntries) := by omega
  have ho : E.GetLastRound.endBlockHeight + delay E ≤ nHeight := hopen
  simp only [GetPaymentsForBlock, hs, hb, hnum, hd, ge_iff_le, ho, if_true, if_false,
    Bool.false_eq_true]

/-! The window body at the payout heights. -/

theorem paymentsInWindow_block [LinearOrder CSmartRewardSnapshot] (E : Env)
    (round : CSmartRewardRound) (l : CSmartRewardSnapshotList) (k : Nat)
    (hn : 1 ≤ payableEntries round)
    (hp : 1 ≤ nPayoutsPerBlock E round) (hI : 1 ≤ nPayoutInterval E round)
    (hst : E.GetRewardPayouts round.number = (true, l))
    (hlen : (l.length : Int) = payableEntries round)
    (hk : (k : Int) < blocksNeeded (payableEntries round) (nPayoutsPerBlock E round)) :
    paymentsInWindow E round
        (round.endBlockHeight + delay E + k * nPayoutInterval E round) =
      (((sortPayments l).drop (k * (nPayoutsPerBlock E round).toNat)).take
          (nPayoutsPerBlock E round).toNat, Result.Valid) := by
  unfold payableEntries at hn hlen hk
  obtain ⟨hB1, hB2, hB3, hB4, hB5⟩ :=
    blocksNeeded_bounds _ _ hn hp
  generalize hBdef : blocksNeeded (round.eligibleEntries - round.disqualifiedEntries)
    (nPayoutsPerBlock E round) = B at *
  have hrb := rewardBlocks_eq (round.eligibleEntries - round.disqualifiedEntries)
    (nPayoutsPerBlock E round) (by omega)
  rw [hBdef] at hrb
  have hmod := tmod_eq_emod_of_nonneg (round.eligibleEntries - round.disqualifiedEntries)
    (nPayoutsPerBlock E round) (by omega)
  unfold paymentsInWindow
  simp only [hst]
  rw [hrb, hmod]
  generalize nPayoutsPerBlock E round = p at *
  generalize nPayoutInterval E round = I at *
  generalize round.eligibleEntries - round.disqualifiedEntries = n at *
  generalize round.endBlockHeight + delay E = S
  have hdiff : S + (B - 1) * I - (S + k * I) = (B - 1 - k) * I := by ring
  have hnn : 0 ≤ (B - 1 - k) * I := mul_nonneg (by omega) (by omega)
  have hm0 : ((B - 1 - k) * I).tmod I = 0 := by
    rw [tmod_eq_emod_of_nonneg _ _ hnn, Int.mul_emod_left]
  have hd0 : ((B - 1 - k) * I).tdiv I = B - 1 - k := by
    rw [tdiv_eq_ediv_of_nonneg _ _ hnn, Int.mul_ediv_cancel _ (by omega)]
  have hle : S + k * I ≤ S + (B - 1) * I := by nlinarith
  rw [hdiff, hm0, hd0]
  have hord : B - (B - 1 - ↑k) = k + 1 := by ring
  rw [hord]
  have hsl : (sortPayments l).length = l.length := List.length_insertionSort _ _
  obtain ⟨P, rfl⟩ : ∃ P : Nat, p = P := ⟨p.toNat, by omega⟩
  obtain ⟨N, rfl⟩ : ∃ N : Nat, n = N := ⟨n.toNat, by omega⟩
  have hlN : l.length = N := by exact_mod_cast hlen
  have hk1 : ((k : Int) + 1 - 1) * (P : Int) = ((k * P : Nat) : Int) := by push_cast; ring
  rw [hk1]
  simp only [hle, true_and, if_true, hsl, hlen, ne_eq, not_true_eq_false, or_false,
    Bool.true_eq_false, if_false, Int.toNat_natCast]
  by_cases hlast : (k : Int) + 1 = B ∧ (N : Int) % P ≠ 0
  · obtain ⟨hkB, hr⟩ := hlast
    have hN := hB5 hr
    have hend : ((k * P : Nat) : Int) + (N : Int) % P = N := by
      rw [← hk1, hkB]; linarith
    simp only [hkB, hr, ne_eq, not_false_eq_true, and_self, if_true, hend, gt_iff_lt,
      lt_self_iff_false, if_false, subVector, Int.toNat_natCast]
    have hrP := Int.emod_lt_of_pos (N : Int) (show (0 : Int) < P by omega)
    have hrest : ((sortPayments l).drop (k * P)).length ≤ P := by
      rw [List.length_drop, hsl, hlN]
      have : (N : Int) - ((k * P : Nat) : Int) < P := by omega
      omega
    rw [List.take_of_length_le (by omega : (sortPayments l).length ≤ N),
      List.take_of_length_le hrest]
  · have hcount : (k : Int) * P + P ≤ N := by
      by_cases hkB : (k : Int) + 1 = B
      · have hr : (N : Int) % P = 0 := by
          by_contra hne; exact hlast ⟨hkB, hne⟩
        have := hB4 hr
        rw [← hkB] at this
        linarith
      · have hk2 : (k : Int) + 1 ≤ B - 1 := by omega
        nlinarith
    have hend : ¬ (((k * P : Nat) : Int) + (P : Int) > (N : Int)) := by
      push_cast; omega
    simp only [hlast, if_false, hend, subVector]
    have h1 : (((k * P : Nat) : Int) + (P : Int)).toNat = k * P + P := by
      have : ((k * P : Nat) : Int) + (P : Int) = ((k * P + P : Nat) : Int) := by push_cast; ring
      rw [this, Int.toNat_natCast]
    rw [h1, Int.toNat_natCast, List.drop_take, Nat.add_sub_cancel_left]

/-- The height test of line 84, in the quantities of the statements. -/
theorem heightTest_iff (E : Env) (round : CSmartRewardRound) (nHeight : Int)
    (hn : 0 ≤ payableEntries round) :
    let rewardBlocks : Int :=
      if (round.eligibleEntries - round.disqualifiedEntries).tmod (nPayoutsPerBlock E round) ≠ 0
      then (round.eligibleEntries - round.disqualifiedEntries).tdiv (nPayoutsPerBlock E round) + 1
      else (round.eligibleEntries - round.disqualifiedEntries).tdiv (nPayoutsPerBlock E round)
    let lastRoundBlock : Int :=
      round.endBlockHeight + delay E + (rewardBlocks - 1) * nPayoutInterval E round
    (nHeight ≤ lastRoundBlock ∧ (lastRoundBlock - nHeight).tmod (nPayoutInterval E round) = 0) ↔
    (nHeight ≤ round.endBlockHeight + delay E +
        (blocksNeeded (payableEntries round) (nPayoutsPerBlock E round) - 1) *
          nPayoutInterval E round ∧
      (round.endBlockHeight + delay E +
        (blocksNeeded (payableEntries round) (nPayoutsPerBlock E round) - 1) *
          nPayoutInterval E round - nHeight) % nPayoutInterval E round = 0) := by
  intro rewardBlocks lastRoundBlock
  unfold payableEntries at hn ⊢
  have hrb : rewardBlocks = blocksNeeded (round.eligibleEntries - round.disqualifiedEntries)
      (nPayoutsPerBlock E round) := rewardBlocks_eq _ _ hn
  have hL : lastRoundBlock = round.endBlockHeight + delay E +
      (blocksNeeded (round.eligibleEntries - round.disqualifiedEntries)
        (nPayoutsPerBlock E round) - 1) * nPayoutInterval E round := by
    show round.endBlockHeight + delay E + (rewardBlocks - 1) * nPayoutInterval E round = _
    rw [hrb]
  rw [hL]
  constructor
  · rintro ⟨h1, h2⟩
    refine ⟨h1, ?_⟩
    rw [← tmod_eq_emod_of_nonneg _ _ (by omega)]
    exact h2
  · rintro ⟨h1, h2⟩
    refine ⟨h1, ?_⟩
    rw [tmod_eq_emod_of_nonneg _ _ (by omega)]
    exact h2

theorem paymentsInWindow_noReward [LinearOrder CSmartRewardSnapshot] (E : Env)
    (round : CSmartRewardRound) (nHeight : Int) (hn : 0 ≤ payableEntries round)
    (h : ¬ (nHeight ≤ round.endBlockHeight + delay E +
        (blocksNeeded (payableEntries round) (nPayoutsPerBlock E round) - 1) *
          nPayoutInterval E round ∧
      (round.endBlockHeight + delay E +
        (blocksNeeded (payableEntries round) (nPayoutsPerBlock E round) - 1) *
          nPayoutInterval E round - nHeight) % nPayoutInterval E round = 0)) :
    paymentsInWindow E round nHeight = ([], Result.NoRewardBlock) := by
  have h' := (not_congr (heightTest_iff E round nHeight hn)).mpr h
  simp only [] at h'
  unfold paymentsInWindow
  simp only [h', if_false]

theorem paymentsInWindow_dbError [LinearOrder CSmartRewardSnapshot] (E : Env)
    (round : CSmartRewardRound) (nHeight : Int) (hn : 0 ≤ payableEntries round)
    (h : nHeight ≤ round.endBlockHeight + delay E +
        (blocksNeeded (payableEntries round) (nPayoutsPerBlock E round) - 1) *
          nPayoutInterval E round ∧
      (round.endBlockHeight + delay E +
        (blocksNeeded (payableEntries round) (nPayoutsPerBlock E round) - 1) *
          nPayoutInterval E round - nHeight) % nPayoutInterval E round = 0)
    (hst : (E.GetRewardPayouts round.number).1 = false ∨
      ((E.GetRewardPayouts round.number).2.length : Int) ≠ payableEntries round) :
    paymentsInWindow E round nHeight = ([], Result.DatabaseError) := by
  have h' := (heightTest_iff E round nHeight hn).mpr h
  simp only [] at h'
  unfold payableEntries at hst
  unfold paymentsInWindow
  simp only [h', hst, and_self, if_true]

/-- A height in the window that passes the modulo test is one of the payout
heights `first + k * interval`, `k < blocksNeeded`. -/
theorem exists_block_index (S I B h : Int) (hI : 1 ≤ I) (hS : S ≤ h)
    (hL : h ≤ S + (B - 1) * I) (hm : (S + (B - 1) * I - h) % I = 0) :
    ∃ k : Nat, (k : Int) < B ∧ h = S + k * I := by
  obtain ⟨m, hmI⟩ : ∃ m, S + (B - 1) * I - h = m * I := by
    have := Int.emod_add_ediv (S + (B - 1) * I - h) I
    rw [hm] at this
    exact ⟨(S + (B - 1) * I - h) / I, by linarith⟩
  have hm0 : 0 ≤ m := by
    by_contra hneg
    have : m ≤ -1 := by omega
    nlinarith
  have hmB : m ≤ B - 1 := by
    by_contra hgt
    have : B ≤ m := by omega
    nlinarith
  refine ⟨(B - 1 - m).toNat, ?_, ?_⟩
  · rw [Int.toNat_of_nonneg (by omega)]; omega
  · rw [Int.toNat_of_nonneg (by omega)]
    have : (B - 1 - m) * I = (B - 1) * I - m * I := by ring
    rw [this]; omega

/-! The whole function at and off the payout heights. -/

/-- The slice at the payout height number `k` (counted from 0). -/
theorem getPayments_at_block [LinearOrder CSmartRewardSnapshot] (E : Env)
    (blockTime : Int) (k : Nat)
    (hen : enabledAt E (firstPayoutHeight E + k * nPayoutInterval E E.GetLastRound))
    (hnum : E.GetLastRound.number ≠ 0)
    (hn : 1 ≤ payableEntries E.GetLastRound)
    (hp : 1 ≤ nPayoutsPerBlock E E.GetLastRound)
    (hI : 1 ≤ nPayoutInterval E E.GetLastRound)
    (hok : (E.GetRewardPayouts E.GetLastRound.number).1 = true)
    (hlen : ((E.GetRewardPayouts E.GetLastRound.number).2.length : Int) =
      payableEntries E.GetLastRound)
    (hk : (k : Int) <
      blocksNeeded (payableEntries E.GetLastRound) (nPayoutsPerBlock E E.GetLastRound)) :
    GetPaymentsForBlock E (firstPayoutHeight E + k * nPayoutInterval E E.GetLastRound)
        blockTime =
      (((sortPayments (E.GetRewardPayouts E.GetLastRound.number).2).drop
          (k * (nPayoutsPerBlock E E.GetLastRound).toNat)).take
            (nPayoutsPerBlock E E.GetLastRound).toNat, Result.Valid) := by
  have hopen : E.GetLastRound.endBlockHeight + delay E ≤
      firstPayoutHeight E + k * nPayoutInterval E E.GetLastRound := by
    unfold firstPayoutHeight
    have : 0 ≤ (k : Int) * nPayoutInterval E E.GetLastRound :=
      mul_nonneg (by omega) (by omega)
    omega
  have hdeg : E.GetLastRound.disqualifiedEntries < E.GetLastRound.eligibleEntries := by
    unfold payableEntries at hn; omega
  rw [getPayments_eq_paymentsInWindow E _ blockTime hen hnum hopen hdeg]
  exact paymentsInWindow_block E E.GetLastRound _ k hn hp hI (Prod.ext hok rfl) hlen hk

/-- Off the payout heights the verdict is `NoRewardBlock`. -/
theorem getPayments_off_schedule [LinearOrder CSmartRewardSnapshot] (E : Env)
    (nHeight blockTime : Int)
    (hn : 0 ≤ payableEntries E.GetLastRound)
    (h : ¬ (firstPayoutHeight E ≤ nHeight ∧ nHeight ≤ lastPayoutHeight E ∧
      (lastPayoutHeight E - nHeight) % nPayoutInterval E E.GetLastRound = 0)) :
    GetPaymentsForBlock E nHeight blockTime = ([], Result.NoRewardBlock) := by
  by_cases h1 : nHeight > E.sporkValue
  · exact getPayments_of_disabled E nHeight blockTime h1
  by_cases h2 : (E.MainNet = true ∧
      nHeight < E.HF_V1_2_SMARTREWARD_HEIGHT + E.nRewardsBlocksPerRound) ∨
      (E.TestNet = true ∧ nHeight < E.nFirstRoundEndBlock_Testnet)
  · exact getPayments_of_beforeActivation E nHeight blockTime h2
  by_cases h3 : E.GetLastRound.number = 0
  · exact getPayments_of_noRound E nHeight blockTime h3
  by_cases h4 : nHeight < E.GetLastRound.endBlockHeight + delay E
  · exact getPayments_of_windowClosed E nHeight blockTime h4
  by_cases h5 : E.GetLastRound.eligibleEntries = E.GetLastRound.disqualifiedEntries ∨
      E.GetLastRound.disqualifiedEntries > E.GetLastRound.eligibleEntries
  · exact getPayments_of_degenerate E nHeight blockTime h5
  have hen : enabledAt E nHeight :=
    ⟨by omega, fun hc => h2 (Or.inl hc), fun hc => h2 (Or.inr hc)⟩
  rw [getPayments_eq_paymentsInWindow E nHeight blockTime hen h3 (by omega) (by omega)]
  apply paymentsInWindow_noReward E E.GetLastRound nHeight hn
  intro hc
  apply h
  refine ⟨?_, hc.1, hc.2⟩
  unfold firstPayoutHeight; omega

/-- A verdict `Valid` is only given at a payout height, with the slice of
that block. -/
theorem valid_inv [LinearOrder CSmartRewardSnapshot] (E : Env)
    (nHeight blockTime : Int)
    (hp : 1 ≤ nPayoutsPerBlock E E.GetLastRound)
    (hI : 1 ≤ nPayoutInterval E E.GetLastRound)
    (hV : (GetPaymentsForBlock E nHeight blockTime).2 = Result.Valid) :
    enabledAt E nHeight ∧ E.GetLastRound.number ≠ 0 ∧ 1 ≤ payableEntries E.GetLastRound ∧
    (E.GetRewardPayouts E.GetLastRound.number).1 = true ∧
    ((E.GetRewardPayouts E.GetLastRound.number).2.length : Int) =
      payableEntries E.GetLastRound ∧
    ∃ k : Nat,
      (k : Int) <
        blocksNeeded (payableEntries E.GetLastRound) (nPayoutsPerBlock E E.GetLastRound) ∧
      nHeight = firstPayoutHeight E + k * nPayoutInterval E E.GetLastRound ∧
      GetPaymentsForBlock E nHeight blockTime =
        (((sortPayments (E.GetRewardPayouts E.GetLastRound.number).2).drop
            (k * (nPayoutsPerBlock E E.GetLastRound).toNat)).take
              (nPayoutsPerBlock E E.GetLastRound).toNat, Result.Valid) := by
  have hne : ∀ x : CSmartRewardSnapshotList × Result,
      GetPaymentsForBlock E nHeight blockTime = x → x.2 ≠ Result.Valid → False := by
    intro x hx hxv; rw [hx] at hV; exact hxv hV
  have h1 : ¬ nHeight > E.sporkValue := fun h =>
    hne _ (getPayments_of_disabled E nHeight blockTime h) (by decide)
  have h2 : ¬ ((E.MainNet = true ∧
      nHeight < E.HF_V1_2_SMARTREWARD_HEIGHT + E.nRewardsBlocksPerRound) ∨
      (E.TestNet = true ∧ nHeight < E.nFirstRoundEndBlock_Testnet)) := fun h =>
    hne _ (getPayments_of_beforeActivation E nHeight blockTime h) (by decide)
  have h3 : E.GetLastRound.number ≠ 0 := fun h =>
    hne _ (getPayments_of_noRound E nHeight blockTime h) (by decide)
  have h4 : ¬ nHeight < E.GetLastRound.endBlockHeight + delay E := fun h =>
    hne _ (getPayments_of_windowClosed E nHeight blockTime h) (by decide)
  have h5 : ¬ (E.GetLastRound.eligibleEntries = E.GetLastRound.disqualifiedEntries ∨
      E.GetLastRound.disqualifiedEntries > E.GetLastRound.eligibleEntries) := fun h =>
    hne _ (getPayments_of_degenerate E nHeight blockTime h) (by decide)
  have hen : enabledAt E nHeight :=
    ⟨by omega, fun hc => h2 (Or.inl hc), fun hc => h2 (Or.inr hc)⟩
  have hn : 1 ≤ payableEntries E.GetLastRound := by unfold payableEntries; omega
  have hwin : firstPayoutHeight E ≤ nHeight ∧ nHeight ≤ lastPayoutHeight E ∧
      (lastPayoutHeight E - nHeight) % nPayoutInterval E E.GetLastRound = 0 := by
    by_contra hc
    exact hne _ (getPayments_off_schedule E nHeight blockTime (by omega) hc) (by decide)
  have hst : ¬ ((E.GetRewardPayouts E.GetLastRound.number).1 = false ∨
      ((E.GetRewardPayouts E.GetLastRound.number).2.length : Int) ≠
        payableEntries E.GetLastRound) := by
    intro hc
    have heq := getPayments_eq_paymentsInWindow E nHeight blockTime hen h3 (by omega) (by omega)
    rw [paymentsInWindow_dbError E E.GetLastRound nHeight (by omega) ⟨hwin.2.1, hwin.2.2⟩ hc]
      at heq
    exact hne _ heq (by decide)
  have hok : (E.GetRewardPayouts E.GetLastRound.number).1 = true := by
    by_contra hc; exact hst (Or.inl (by simpa using hc))
  have hlen : ((E.GetRewardPayouts E.GetLastRound.number).2.length : Int) =
      payableEntries E.GetLastRound := by
    by_contra hc; exact hst (Or.inr hc)
  obtain ⟨k, hk, hkh⟩ := exists_block_index (firstPayoutHeight E)
    (nPayoutInterval E E.GetLastRound)
    (blocksNeeded (payableEntries E.GetLastRound) (nPayoutsPerBlock E E.GetLastRound))
    nHeight hI hwin.1 hwin.2.1 hwin.2.2
  refine ⟨hen, h3, hn, hok, hlen, k, hk, hkh, ?_⟩
  have := getPayments_at_block E blockTime k (hkh ▸ hen) h3 hn hp hI hok hlen hk
  rw [← hkh] at this
  exact this

/-- Cutting a list into `n` consecutive chunks of `P` elements and gluing them
back gives its first `n * P` elements. -/
theorem flatten_chunks {α : Type} (L : List α) (P n : Nat) :
    ((List.range n).map (fun k => (L.drop (k * P)).take P)).flatten = L.take (n * P) := by
  induction n with
  | zero => simp
  | succ n ih =>
    rw [List.range_succ, List.map_append, List.flatten_append, ih]
    simp only [List.map_cons, List.map_nil, List.flatten_cons, List.flatten_nil,
      List.append_nil]
    rw [Nat.succ_mul, List.take_add]

/-- The slices of the payout heights `1..blocksNeeded`, glued in that order,
are the sorted payee list. -/
theorem flatten_slices [LinearOrder CSmartRewardSnapshot] (E : Env) (blockTime : Int)
    (hnum : E.GetLastRound.number ≠ 0)
    (hn : 1 ≤ payableEntries E.GetLastRound)
    (hp : 1 ≤ nPayoutsPerBlock E E.GetLastRound)
    (hI : 1 ≤ nPayoutInterval E E.GetLastRound)
    (hok : (E.GetRewardPayouts E.GetLastRound.number).1 = true)
    (hlen : ((E.GetRewardPayouts E.GetLastRound.number).2.length : Int) =
      payableEntries E.GetLastRound)
    (hen : ∀ i : Nat, 1 ≤ i →
      (i : Int) ≤
        blocksNeeded (payableEntries E.GetLastRound) (nPayoutsPerBlock E E.GetLastRound) →
      enabledAt E (payoutHeight E i)) :
    (∀ k : Nat, (k : Int) <
        blocksNeeded (payableEntries E.GetLastRound) (nPayoutsPerBlock E E.GetLastRound) →
      GetPaymentsForBlock E (payoutHeight E (k + 1)) blockTime =
        (((sortPayments (E.GetRewardPayouts E.GetLastRound.number).2).drop
            (k * (nPayoutsPerBlock E E.GetLastRound).toNat)).take
              (nPayoutsPerBlock E E.GetLastRound).toNat, Result.Valid)) ∧
    ((List.range' 1
        (blocksNeeded (payableEntries E.GetLastRound)
          (nPayoutsPerBlock E E.GetLastRound)).toNat).map
      (fun i => (GetPaymentsForBlock E (payoutHeight E i) blockTime).1)).flatten =
      sortPayments (E.GetRewardPayouts E.GetLastRound.number).2 := by
  have hheight : ∀ k : Nat, payoutHeight E (k + 1) =
      firstPayoutHeight E + k * nPayoutInterval E E.GetLastRound := by
    intro k; unfold payoutHeight; push_cast; ring
  have hblock : ∀ k : Nat, (k : Int) <
        blocksNeeded (payableEntries E.GetLastRound) (nPayoutsPerBlock E E.GetLastRound) →
      GetPaymentsForBlock E (payoutHeight E (k + 1)) blockTime =
        (((sortPayments (E.GetRewardPayouts E.GetLastRound.number).2).drop
            (k * (nPayoutsPerBlock E E.GetLastRound).toNat)).take
              (nPayoutsPerBlock E E.GetLastRound).toNat, Result.Valid) := by
    intro k hk
    have he := hen (k + 1) (by omega) (by push_cast; omega)
    rw [hheight] at he ⊢
    exact getPayments_at_block E blockTime k he hnum hn hp hI hok hlen hk
  refine ⟨hblock, ?_⟩
  obtain ⟨hB1, -, hB3, -, -⟩ := blocksNeeded_bounds _ _ hn hp
  rw [List.range'_eq_map_range, List.map_map]
  have hmap : (List.range (blocksNeeded (payableEntries E.GetLastRound)
        (nPayoutsPerBlock E E.GetLastRound)).toNat).map
        ((fun i => (GetPaymentsForBlock E (payoutHeight E i) blockTime).1) ∘ fun x => 1 + x) =
      (List.range (blocksNeeded (payableEntries E.GetLastRound)
        (nPayoutsPerBlock E E.GetLastRound)).toNat).map
        (fun k => ((sortPayments (E.GetRewardPayouts E.GetLastRound.number).2).drop
            (k * (nPayoutsPerBlock E E.GetLastRound).toNat)).take
              (nPayoutsPerBlock E E.GetLastRound).toNat) := by
    apply List.map_congr_left
    intro k hk
    have hk2 : (k : Int) < blocksNeeded (payableEntries E.GetLastRound)
        (nPayoutsPerBlock E E.GetLastRound) := by
      have := List.mem_range.mp hk
      omega
    simp only [Function.comp_apply, Nat.add_comm 1 k, hblock k hk2]
  rw [hmap, flatten_chunks]
  apply List.take_of_length_le
  rw [length_sortPayments]
  have h1 : ((blocksNeeded (payableEntries E.GetLastRound)
      (nPayoutsPerBlock E E.GetLastRound)).toNat : Int) =
      blocksNeeded (payableEntries E.GetLastRound) (nPayoutsPerBlock E E.GetLastRound) :=
    Int.toNat_of_nonneg (by omega)
  have h2 : ((nPayoutsPerBlock E E.GetLastRound).toNat : Int) =
      nPayoutsPerBlock E E.GetLastRound := Int.toNat_of_nonneg (by omega)
  have : ((E.GetRewardPayouts E.GetLastRound.number).2.length : Int) ≤
      (((blocksNeeded (payableEntries E.GetLastRound)
        (nPayoutsPerBlock E E.GetLastRound)).toNat *
        (nPayoutsPerBlock E E.GetLastRound).toNat : Nat) : Int) := by
    push_cast; rw [h1, h2, hlen]; exact hB3
  exact_mod_cast this

/-- The window body reads the database only through the success flag and the
sorted list. -/
theorem paymentsInWindow_congr [LinearOrder CSmartRewardSnapshot] (E : Env)
    (g₁ g₂ : Int → Bool × CSmartRewardSnapshotList) (round : CSmartRewardRound)
    (nHeight : Int)
    (hflag : (g₁ round.number).1 = (g₂ round.number).1)
    (hperm : (g₁ round.number).2.Perm (g₂ round.number).2) :
    paymentsInWindow { E with GetRewardPayouts := g₁ } round nHeight =
      paymentsInWindow { E with GetRewardPayouts := g₂ } round nHeight := by
  have hsort := sortPayments_perm _ _ hperm
  have hlen := hperm.length_eq
  unfold paymentsInWindow nPayoutsPerBlock nPayoutInterval delay
  simp only [hflag, hsort, hlen]

/-- The heights with verdict `Valid` are the payout heights, one for each
block index below `blocksNeeded`. -/
theorem valid_heights_eq [LinearOrder CSmartRewardSnapshot] (E : Env) (blockTime : Int)
    (hnum : E.GetLastRound.number ≠ 0)
    (hn : 1 ≤ payableEntries E.GetLastRound)
    (hp : 1 ≤ nPayoutsPerBlock E E.GetLastRound)
    (hI : 1 ≤ nPayoutInterval E E.GetLastRound)
    (hok : (E.GetRewardPayouts E.GetLastRound.number).1 = true)
    (hlen : ((E.GetRewardPayouts E.GetLastRound.number).2.length : Int) =
      payableEntries E.GetLastRound)
    (hen : ∀ i : Nat, 1 ≤ i →
      (i : Int) ≤
        blocksNeeded (payableEntries E.GetLastRound) (nPayoutsPerBlock E E.GetLastRound) →
      enabledAt E (payoutHeight E i)) :
    {h : Int | (GetPaymentsForBlock E h blockTime).2 = Result.Valid} =
      (fun k : Nat => payoutHeight E (k + 1)) ''
        (↑(Finset.range (blocksNeeded (payableEntries E.GetLastRound)
          (nPayoutsPerBlock E E.GetLastRound)).toNat) : Set Nat) := by
  obtain ⟨hB1, -, -, -, -⟩ := blocksNeeded_bounds _ _ hn hp
  have hheight : ∀ k : Nat, payoutHeight E (k + 1) =
      firstPayoutHeight E + k * nPayoutInterval E E.GetLastRound := by
    intro k; unfold payoutHeight; push_cast; ring
  ext h
  simp only [Set.mem_setOf_eq, Set.mem_image, Finset.coe_range, Set.mem_Iio]
  constructor
  · intro hV
    obtain ⟨-, -, -, -, -, k, hk, hkh, -⟩ := valid_inv E h blockTime hp hI hV
    exact ⟨k, by omega, by rw [hheight, hkh]⟩
  · rintro ⟨k, hk, rfl⟩
    have hk2 : (k : Int) < blocksNeeded (payableEntries E.GetLastRound)
        (nPayoutsPerBlock E E.GetLastRound) := by omega
    rw [(flatten_slices E blockTime hnum hn hp hI hok hlen hen).1 k hk2]

/-- The payout heights are pairwise different. -/
theorem payoutHeight_injective (E : Env) (hI : 1 ≤ nPayoutInterval E E.GetLastRound) :
    Function.Injective (fun k : Nat => payoutHeight E (k + 1)) := by
  intro a b hab
  simp only [payoutHeight] at hab
  have h : ((a : Int) - b) * nPayoutInterval E E.GetLastRound = 0 := by
    push_cast at hab; linarith
  rcases mul_eq_zero.mp h with h0 | h0
  · omega
  · omega

/-! The validation loop. -/

/-- The predicate of `find_if` in words: same script, and amounts less than
1000 apart. -/
theorem isPaymentOf_iff (payout : CSmartRewardSnapshot) (txout : CTxOut) :
    isPaymentOf payout txout = true ↔
      txout.scriptPubKey = payout.id ∧ |(payout.reward : Int) - txout.nValue| < 1000 := by
  unfold isPaymentOf
  rw [Int.abs_eq_natAbs]
  simp only [Bool.and_eq_true, decide_eq_true_eq]
  constructor
  · rintro ⟨h1, h2⟩; exact ⟨h1.symm, by exact_mod_cast h2⟩
  · rintro ⟨h1, h2⟩; exact ⟨h1.symm, by exact_mod_cast h2⟩

/-- No output of `vout` pays `payout`. -/
theorem find_eq_none_iff (vout : List CTxOut) (payout : CSmartRewardSnapshot) :
    vout.find? (isPaymentOf payout) = none ↔
      ∀ o ∈ vout, ¬ (o.scriptPubKey = payout.id ∧
        |(payout.reward : Int) - o.nValue| < 1000) := by
  rw [List.find?_eq_none]
  constructor
  · intro h o ho hc; exact h o ho ((isPaymentOf_iff payout o).mpr hc)
  · intro h o ho hc; exact h o ho ((isPaymentOf_iff payout o).mp hc)

/-- Once a payee is missing, the verdict of the loop is `InvalidRewardList`,
whatever comes before or after. -/
theorem foldl_validateStep_invalid (vout : List CTxOut)
    (rewards : CSmartRewardSnapshotList) (acc : Result × Int)
    (h : acc.1 = Result.InvalidRewardList ∨
      ∃ s ∈ rewards, s.reward ≠ 0 ∧ vout.find? (isPaymentOf s) = none) :
    (rewards.foldl (validateStep vout) acc).1 = Result.InvalidRewardList := by
  induction rewards generalizing acc with
  | nil =>
    rcases h with h | ⟨s, hs, -⟩
    · exact h
    · cases hs
  | cons a rest ih =>
    rw [List.foldl_cons]
    apply ih
    by_cases ha : a.reward = 0
    · have hstep : validateStep vout acc a = acc := by simp [validateStep, ha]
      rw [hstep]
      rcases h with h | ⟨s, hs, hs0, hsn⟩
      · exact Or.inl h
      · rcases List.mem_cons.mp hs with rfl | hs'
        · exact absurd ha hs0
        · exact Or.inr ⟨s, hs', hs0, hsn⟩
    · cases hf : vout.find? (isPaymentOf a) with
      | none =>
        left
        simp [validateStep, ha, hf]
      | some o =>
        have hstep : validateStep vout acc a = (acc.1, acc.2 + o.nValue) := by
          simp [validateStep, ha, hf]
        rw [hstep]
        rcases h with h | ⟨s, hs, hs0, hsn⟩
        · exact Or.inl h
        · rcases List.mem_cons.mp hs with rfl | hs'
          · rw [hf] at hsn; cases hsn
          · exact Or.inr ⟨s, hs', hs0, hsn⟩

/-- When no payee is missing, the loop leaves the verdict as it was. -/
theorem foldl_validateStep_keep (vout : List CTxOut)
    (rewards : CSmartRewardSnapshotList) (acc : Result × Int)
    (h : ¬ ∃ s ∈ rewards, s.reward ≠ 0 ∧ vout.find? (isPaymentOf s) = none) :
    (rewards.foldl (validateStep vout) acc).1 = acc.1 := by
  induction rewards generalizing acc with
  | nil => rfl
  | cons a rest ih =>
    rw [List.foldl_cons]
    have hrest : ¬ ∃ s ∈ rest, s.reward ≠ 0 ∧ vout.find? (isPaymentOf s) = none := by
      rintro ⟨s, hs, hc⟩; exact h ⟨s, List.mem_cons_of_mem _ hs, hc⟩
    rw [ih _ hrest]
    by_cases ha : a.reward = 0
    · simp [validateStep, ha]
    · cases hf : vout.find? (isPaymentOf a) with
      | none => exact absurd ⟨a, List.mem_cons_self _ _, ha, hf⟩ h
      | some o => simp [validateStep, ha, hf]

/-- On a `Valid` and non-empty slice, `Validate` is the loop over the slice. -/
theorem validate_eq_foldl [LinearOrder CSmartRewardSnapshot] (E : Env) (block : CBlock)
    (nHeight : Int) (slice : CSmartRewardSnapshotList)
    (hV : GetPaymentsForBlock E nHeight block.nTime = (slice, Result.Valid))
    (hne : slice ≠ []) :
    Validate E block nHeight =
      slice.foldl (validateStep (coinbaseOutputs block)) (Result.Valid, 0) := by
  have hlen : slice.length ≠ 0 := by
    intro h; exact hne (List.length_eq_zero.mp h)
  unfold Validate
  simp only [hV, hlen, ne_eq, not_false_eq_true, and_self, if_true]

/-- When `o` is the only output with the script of `payout` and it is a
payment of `payout`, the loop body keeps the verdict and adds its amount. -/
theorem validateStep_of_only_output (vout : List CTxOut) (acc : Result × Int)
    (payout : CSmartRewardSnapshot) (o : CTxOut) (hr : payout.reward ≠ 0)
    (ho : o ∈ vout)
    (honly : ∀ x ∈ vout, x.scriptPubKey = payout.id → x = o)
    (hpay : isPaymentOf payout o = true) :
    validateStep vout acc payout = (acc.1, acc.2 + o.nValue) := by
  cases hf : vout.find? (isPaymentOf payout) with
  | none =>
    exact absurd hpay (by
      have := List.find?_eq_none.mp hf o ho
      simpa using this)
  | some x =>
    have hx := honly x (List.mem_of_find?_eq_some hf)
      ((isPaymentOf_iff payout x).mp (List.find?_some hf)).1
    subst hx
    simp [validateStep, hr, hf]

/-! The claims. -/

/-- C7 (early exits). When the height is above the spork value, or precedes
the activation height of the network, or the latest round has number 0, or the
height is below `endBlockHeight + delay`, `GetPaymentsForBlock` returns an
empty list with `NoRewardBlock`, whatever the rest of the environment is. -/
theorem early_exits_give_noRewardBlock [LinearOrder CSmartRewardSnapshot] (E : Env)
    (nHeight blockTime : Int)
    (h : nHeight > E.sporkValue ∨
         ((E.MainNet = true ∧
            nHeight < E.HF_V1_2_SMARTREWARD_HEIGHT + E.nRewardsBlocksPerRound) ∨
          (E.TestNet = true ∧ nHeight < E.nFirstRoundEndBlock_Testnet)) ∨
         E.GetLastRound.number = 0 ∨
         nHeight < E.GetLastRound.endBlockHeight + delay E) :
    GetPaymentsForBlock E nHeight blockTime = ([], Result.NoRewardBlock) := by
  rcases h with h | h | h | h
  · exact getPayments_of_disabled E nHeight blockTime h
  · exact getPayments_of_beforeActivation E nHeight blockTime h
  · exact getPayments_of_noRound E nHeight blockTime h
  · exact getPayments_of_windowClosed E nHeight blockTime h

/-- Witness of C7: on `sampleEnv` height 219 is one below the opening of the
window (220), and the call returns `NoRewardBlock`. -/
theorem early_exits_witness :
    (219 : Int) < sampleEnv.GetLastRound.endBlockHeight + delay sampleEnv ∧
    @GetPaymentsForBlock orderByScript sampleEnv 219 0 = ([], Result.NoRewardBlock) :=
  ⟨by decide,
   @early_exits_give_noRewardBlock orderByScript sampleEnv 219 0
     (Or.inr (Or.inr (Or.inr (by decide))))⟩

/-- C6 (degenerate round). When the latest round has as many disqualified as
eligible entries, or more, `GetPaymentsForBlock` returns an empty list with
`NoRewardBlock` at every height and for every database content; in particular
the verdict is neither `Valid` nor `DatabaseError`. -/
theorem degenerate_round_noRewardBlock [LinearOrder CSmartRewardSnapshot] (E : Env)
    (nHeight blockTime : Int)
    (h : E.GetLastRound.eligibleEntries = E.GetLastRound.disqualifiedEntries ∨
         E.GetLastRound.disqualifiedEntries > E.GetLastRound.eligibleEntries) :
    GetPaymentsForBlock E nHeight blockTime = ([], Result.NoRewardBlock) ∧
    (GetPaymentsForBlock E nHeight blockTime).2 ≠ Result.Valid ∧
    (GetPaymentsForBlock E nHeight blockTime).2 ≠ Result.DatabaseError := by
  have := getPayments_of_degenerate E nHeight blockTime h
  rw [this]
  exact ⟨rfl, by decide, by decide⟩

/-- Witness of C6: `degenerateEnv` has 10 eligible and 10 disqualified
entries; at height 220, a payout height of the same round with no
disqualification, the call returns `NoRewardBlock`. -/
theorem degenerate_round_witness :
    degenerateEnv.GetLastRound.eligibleEntries = degenerateEnv.GetLastRound.disqualifiedEntries ∧
    @GetPaymentsForBlock orderByScript degenerateEnv 220 0 = ([], Result.NoRewardBlock) :=
  ⟨by decide,
   (@degenerate_round_noRewardBlock orderByScript degenerateEnv 220 0
     (Or.inl (by decide))).1⟩

/-- C8 (store inconsistency). At a height that is enabled and active, with
a round of number other than 0 that has fewer disqualified than eligible
entries, an open window, `nHeight ≤ lastPayoutHeight` and
`(lastPayoutHeight - nHeight) % nPayoutInterval = 0`: when `GetRewardPayouts`
fails, or hands back a list whose length is not
`eligibleEntries - disqualifiedEntries`, `GetPaymentsForBlock` returns an empty
list with `DatabaseError`. -/
theorem store_inconsistency_databaseError [LinearOrder CSmartRewardSnapshot] (E : Env)
    (nHeight blockTime : Int)
    (hen : enabledAt E nHeight)
    (hnum : E.GetLastRound.number ≠ 0)
    (hdeg : E.GetLastRound.disqualifiedEntries < E.GetLastRound.eligibleEntries)
    (hopen : firstPayoutHeight E ≤ nHeight)
    (hlast : nHeight ≤ lastPayoutHeight E)
    (hmod : (lastPayoutHeight E - nHeight) % nPayoutInterval E E.GetLastRound = 0)
    (hst : (E.GetRewardPayouts E.GetLastRound.number).1 = false ∨
      ((E.GetRewardPayouts E.GetLastRound.number).2.length : Int) ≠
        E.GetLastRound.eligibleEntries - E.GetLastRound.disqualifiedEntries) :
    GetPaymentsForBlock E nHeight blockTime = ([], Result.DatabaseError) := by
  rw [getPayments_eq_paymentsInWindow E nHeight blockTime hen hnum hopen hdeg]
  have hn : 0 ≤ payableEntries E.GetLastRound := by unfold payableEntries; omega
  exact paymentsInWindow_dbError E E.GetLastRound nHeight hn ⟨hlast, hmod⟩ hst

/-- Witness of C8: `brokenEnv` stores 9 payees for a round with 10; at the
payout height 222 the call returns `DatabaseError`. -/
theorem store_inconsistency_witness :
    enabledAt brokenEnv 222 ∧ lastPayoutHeight brokenEnv = 226 ∧
    @GetPaymentsForBlock orderByScript brokenEnv 222 0 = ([], Result.DatabaseError) :=
  ⟨by decide, by decide,
   @store_inconsistency_databaseError orderByScript brokenEnv 222 0
     (by decide) (by decide) (by decide) (by decide) (by decide) (by decide)
     (Or.inr (by decide))⟩

/-- C2 (payout-height test). At an enabled and active height, for a round of
number other than 0 with fewer disqualified than eligible entries, with at
least 1 payout a block and an interval of at least 1, and a database that
returns exactly `eligibleEntries - disqualifiedEntries` payees:
`GetPaymentsForBlock` returns `Valid` exactly when
`firstPayoutHeight ≤ nHeight ≤ lastPayoutHeight` and
`(lastPayoutHeight - nHeight) % nPayoutInterval = 0`, and at every other
height it returns an empty list with `NoRewardBlock`. -/
theorem payout_height_test [LinearOrder CSmartRewardSnapshot] (E : Env)
    (nHeight blockTime : Int)
    (hen : enabledAt E nHeight)
    (hnum : E.GetLastRound.number ≠ 0)
    (hdeg : E.GetLastRound.disqualifiedEntries < E.GetLastRound.eligibleEntries)
    (hp : 1 ≤ nPayoutsPerBlock E E.GetLastRound)
    (hI : 1 ≤ nPayoutInterval E E.GetLastRound)
    (hok : (E.GetRewardPayouts E.GetLastRound.number).1 = true)
    (hlen : ((E.GetRewardPayouts E.GetLastRound.number).2.length : Int) =
      E.GetLastRound.eligibleEntries - E.GetLastRound.disqualifiedEntries) :
    ((GetPaymentsForBlock E nHeight blockTime).2 = Result.Valid ↔
      (E.GetLastRound.endBlockHeight + delay E ≤ nHeight ∧ nHeight ≤ lastPayoutHeight E ∧
        (lastPayoutHeight E - nHeight) % nPayoutInterval E E.GetLastRound = 0)) ∧
    (¬ (E.GetLastRound.endBlockHeight + delay E ≤ nHeight ∧ nHeight ≤ lastPayoutHeight E ∧
        (lastPayoutHeight E - nHeight) % nPayoutInterval E E.GetLastRound = 0) →
      GetPaymentsForBlock E nHeight blockTime = ([], Result.NoRewardBlock)) := by
  have hn : 1 ≤ payableEntries E.GetLastRound := by unfold payableEntries; omega
  have hoff : ¬ (E.GetLastRound.endBlockHeight + delay E ≤ nHeight ∧
      nHeight ≤ lastPayoutHeight E ∧
      (lastPayoutHeight E - nHeight) % nPayoutInterval E E.GetLastRound = 0) →
      GetPaymentsForBlock E nHeight blockTime = ([], Result.NoRewardBlock) :=
    fun hc => getPayments_off_schedule E nHeight blockTime (by omega) hc
  refine ⟨⟨?_, ?_⟩, hoff⟩
  · intro hV
    by_contra hc
    rw [hoff hc] at hV
    exact absurd hV (by decide)
  · rintro ⟨h1, h2, h3⟩
    obtain ⟨k, hk, hkh⟩ := exists_block_index (firstPayoutHeight E)
      (nPayoutInterval E E.GetLastRound)
      (blocksNeeded (payableEntries E.GetLastRound) (nPayoutsPerBlock E E.GetLastRound))
      nHeight hI h1 h2 h3
    have := getPayments_at_block E blockTime k (hkh ▸ hen) hnum hn hp hI hok hlen hk
    rw [hkh, this]

/-- Witness of C2: on `sampleEnv` (payout heights 220, 222, 224, 226) the
hypotheses hold at height 224, which passes the test, and at height 225, which
fails the modulo condition. -/
theorem payout_height_test_witness :
    lastPayoutHeight sampleEnv = 226 ∧
    (@GetPaymentsForBlock orderByScript sampleEnv 224 0).2 = Result.Valid ∧
    @GetPaymentsForBlock orderByScript sampleEnv 225 0 = ([], Result.NoRewardBlock) :=
  ⟨by decide,
   (@payout_height_test orderByScript sampleEnv 224 0 (by decide) (by decide) (by decide)
      (by decide) (by decide) (by decide) (by decide)).1.2 (by decide),
   (@payout_height_test orderByScript sampleEnv 225 0 (by decide) (by decide) (by decide)
      (by decide) (by decide) (by decide) (by decide)).2 (by decide)⟩

/-- C3 (slice definition). Whenever `GetPaymentsForBlock` returns `Valid`
(with at least 1 payout a block and an interval of at least 1), the returned
list is the half-open range `[start, stop)` of the sorted payee list, where
`blockOrdinal = blocksNeeded - (lastPayoutHeight - nHeight) / nPayoutInterval`,
`start = (blockOrdinal - 1) * nPayoutsPerBlock`, `stop = start + blockPayeeCount`
and `blockPayeeCount` is `nPayoutsPerBlock`, except in the block of ordinal
`blocksNeeded` when `payable % nPayoutsPerBlock ≠ 0`, where it is that
remainder. The ordinal lies in `1..blocksNeeded`, the range lies inside the
list, and the elements come in sorted order. -/
theorem slice_definition [LinearOrder CSmartRewardSnapshot] (E : Env)
    (nHeight blockTime : Int) (slice : CSmartRewardSnapshotList)
    (hp : 1 ≤ nPayoutsPerBlock E E.GetLastRound)
    (hI : 1 ≤ nPayoutInterval E E.GetLastRound)
    (hV : GetPaymentsForBlock E nHeight blockTime = (slice, Result.Valid)) :
    let payable := payableEntries E.GetLastRound
    let perBlock := nPayoutsPerBlock E E.GetLastRound
    let needed := blocksNeeded payable perBlock
    let sorted := sortPayments (E.GetRewardPayouts E.GetLastRound.number).2
    let blockOrdinal :=
      needed - (lastPayoutHeight E - nHeight) / nPayoutInterval E E.GetLastRound
    let blockPayeeCount :=
      if blockOrdinal = needed ∧ payable % perBlock ≠ 0 then payable % perBlock else perBlock
    let start := (blockOrdinal - 1) * perBlock
    let stop := start + blockPayeeCount
    1 ≤ blockOrdinal ∧ blockOrdinal ≤ needed ∧
    0 ≤ start ∧ start < stop ∧ stop ≤ (sorted.length : Int) ∧
    slice = (sorted.drop start.toNat).take (stop - start).toNat ∧
    (slice.length : Int) = stop - start ∧
    (∀ j : Nat, (j : Int) < stop - start → slice[j]? = sorted[start.toNat + j]?) ∧
    sorted.Perm (E.GetRewardPayouts E.GetLastRound.number).2 ∧
    sorted.Sorted (· ≤ ·) ∧ slice.Sorted (· ≤ ·) := by
  intro payable perBlock needed sorted blockOrdinal blockPayeeCount start stop
  obtain ⟨-, -, hn, -, hlen, k, hk, hkh, hres⟩ :=
    valid_inv E nHeight blockTime hp hI (by rw [hV])
  rw [hV] at hres
  have hslice : slice = (sorted.drop (k * perBlock.toNat)).take perBlock.toNat :=
    (Prod.mk.injEq _ _ _ _ ▸ hres).1
  obtain ⟨hB1, hB2, hB3, hB4, hB5⟩ := blocksNeeded_bounds _ _ hn hp
  have hsl : sorted.length = (E.GetRewardPayouts E.GetLastRound.number).2.length :=
    List.length_insertionSort _ _
  have hperm : sorted.Perm (E.GetRewardPayouts E.GetLastRound.number).2 :=
    List.perm_insertionSort _ _
  have hsorted : sorted.Sorted (· ≤ ·) := List.sorted_insertionSort _ _
  have hdiff : lastPayoutHeight E - nHeight =
      (needed - 1 - k) * nPayoutInterval E E.GetLastRound := by
    rw [hkh]; unfold lastPayoutHeight; ring
  have hord : blockOrdinal = k + 1 := by
    show needed - (lastPayoutHeight E - nHeight) / nPayoutInterval E E.GetLastRound = _
    rw [hdiff, Int.mul_ediv_cancel _ (by omega)]; ring
  have hlenS : (sorted.length : Int) = payable := by rw [hsl]; exact hlen
  -- from here on the quantities of the statement are plain variables
  have hn1 : 1 ≤ payable := hn
  have hp1 : 1 ≤ perBlock := hp
  have hk1 : (k : Int) < needed := hk
  have hB2a : (needed - 1) * perBlock < payable := hB2
  have hB4a : payable % perBlock = 0 → payable = needed * perBlock := hB4
  have hB5a : payable % perBlock ≠ 0 → payable = (needed - 1) * perBlock + payable % perBlock :=
    hB5
  have hcnt : blockPayeeCount =
      if blockOrdinal = needed ∧ payable % perBlock ≠ 0 then payable % perBlock
      else perBlock := rfl
  have hstartDef : start = (blockOrdinal - 1) * perBlock := rfl
  have hstopDef : stop = start + blockPayeeCount := rfl
  clear_value stop start blockPayeeCount blockOrdinal sorted needed
  clear hB1 hB2 hB3 hB4 hB5 hk hn hp hres hdiff hlen hsl hV hkh
  clear_value perBlock payable
  obtain ⟨P, rfl⟩ : ∃ P : Nat, perBlock = P := ⟨perBlock.toNat, by omega⟩
  have hrlt := Int.emod_lt_of_pos payable (show (0 : Int) < P by omega)
  have hrnn := Int.emod_nonneg payable (show (P : Int) ≠ 0 by omega)
  rw [Int.toNat_natCast] at hslice
  have hstart : start = ((k * P : Nat) : Int) := by
    rw [hstartDef, hord]; push_cast; ring
  have hcount : 1 ≤ blockPayeeCount ∧ blockPayeeCount ≤ P ∧
      start + blockPayeeCount ≤ payable ∧
      (blockPayeeCount < P → start + blockPayeeCount = payable) := by
    by_cases hlast : blockOrdinal = needed ∧ payable % (P : Int) ≠ 0
    · have hN := hB5a hlast.2
      rw [← hlast.1, hord] at hN
      rw [if_pos hlast] at hcnt
      rw [hcnt, hstart]
      have : ((k * P : Nat) : Int) = ((k : Int) + 1 - 1) * P := by push_cast; ring
      rw [this]
      refine ⟨by omega, by omega, ?_, fun _ => ?_⟩
      · linarith
      · linarith
    · rw [if_neg hlast] at hcnt
      rw [hcnt, hstart]
      refine ⟨hp1, le_refl _, ?_, fun h => absurd h (lt_irrefl _)⟩
      push_cast
      by_cases hkB : blockOrdinal = needed
      · have hr : payable % (P : Int) = 0 := by
          by_contra hne; exact hlast ⟨hkB, hne⟩
        have := hB4a hr
        rw [← hkB, hord] at this
        linarith
      · have hk2 : (k : Int) + 1 ≤ needed - 1 := by
          rw [hord] at hkB; omega
        nlinarith
  obtain ⟨hc1, hc2, hc3, hc4⟩ := hcount
  have hstop : stop - start = blockPayeeCount := by rw [hstopDef]; ring
  have htake : (sorted.drop (k * P)).take P =
      (sorted.drop (k * P)).take blockPayeeCount.toNat := by
    by_cases hlt : blockPayeeCount < P
    · have hrest : (sorted.drop (k * P)).length ≤ blockPayeeCount.toNat := by
        rw [List.length_drop]
        have := hc4 hlt
        omega
      rw [List.take_of_length_le hrest, List.take_of_length_le (by omega)]
    · have : blockPayeeCount = P := by omega
      rw [this, Int.toNat_natCast]
  have hsliceEq : slice = (sorted.drop start.toNat).take (stop - start).toNat := by
    rw [hstop, hstart, Int.toNat_natCast, hslice, htake]
  have hlenSlice : (slice.length : Int) = stop - start := by
    rw [hsliceEq, List.length_take, List.length_drop, hstop]
    omega
  refine ⟨by omega, by omega, by omega, by omega, by omega, hsliceEq, hlenSlice, ?_, hperm,
    hsorted, ?_⟩
  · intro j hj
    rw [hsliceEq, List.getElem?_take_of_lt (by omega), List.getElem?_drop]
  · rw [hsliceEq]
    exact (hsorted.sublist ((List.take_sublist _ _).trans (List.drop_sublist _ _)))

/-- Witness of C3: on `sampleEnv` the call at height 226, the fourth and last
payout block, returns `Valid` with the single payee left over by the first
three blocks, the range `[9, 10)` of the sorted list. -/
theorem slice_definition_witness :
    @GetPaymentsForBlock orderByScript sampleEnv 226 0 = ([⟨[10], 100⟩], Result.Valid) ∧
    ([⟨[10], 100⟩] : CSmartRewardSnapshotList) =
      ((@sortPayments orderByScript samplePayees).drop 9).take 1 :=
  ⟨by decide,
   (@slice_definition orderByScript sampleEnv 226 0 [⟨[10], 100⟩] (by decide) (by decide)
      (by decide)).2.2.2.2.2.1⟩

/-- C1 (coverage and partition). For a round of number other than 0 with at
least one payable entry, at least 1 payout a block, an interval of at least 1
and a database that returns exactly `payable` payees, when the payout heights
`h_i = firstPayoutHeight + (i - 1) * nPayoutInterval`, `i = 1..blocksNeeded`,
are enabled and active: `GetPaymentsForBlock` returns `Valid` at every `h_i`,
and the slices returned at `h_1, ..., h_blocksNeeded`, concatenated in that
order, are the sorted payee list, which is a permutation of the stored one. -/
theorem coverage_partition [LinearOrder CSmartRewardSnapshot] (E : Env) (blockTime : Int)
    (hnum : E.GetLastRound.number ≠ 0)
    (hpay : 1 ≤ E.GetLastRound.eligibleEntries - E.GetLastRound.disqualifiedEntries)
    (hp : 1 ≤ nPayoutsPerBlock E E.GetLastRound)
    (hI : 1 ≤ nPayoutInterval E E.GetLastRound)
    (hok : (E.GetRewardPayouts E.GetLastRound.number).1 = true)
    (hlen : ((E.GetRewardPayouts E.GetLastRound.number).2.length : Int) =
      E.GetLastRound.eligibleEntries - E.GetLastRound.disqualifiedEntries)
    (hen : ∀ i : Nat, 1 ≤ i →
      (i : Int) ≤
        blocksNeeded (payableEntries E.GetLastRound) (nPayoutsPerBlock E E.GetLastRound) →
      enabledAt E (payoutHeight E i)) :
    (∀ i : Nat, 1 ≤ i →
      (i : Int) ≤
        blocksNeeded (payableEntries E.GetLastRound) (nPayoutsPerBlock E E.GetLastRound) →
      (GetPaymentsForBlock E (payoutHeight E i) blockTime).2 = Result.Valid) ∧
    ((List.range' 1
        (blocksNeeded (payableEntries E.GetLastRound)
          (nPayoutsPerBlock E E.GetLastRound)).toNat).map
      (fun i => (GetPaymentsForBlock E (payoutHeight E i) blockTime).1)).flatten =
      sortPayments (E.GetRewardPayouts E.GetLastRound.number).2 ∧
    (sortPayments (E.GetRewardPayouts E.GetLastRound.number).2).Perm
      (E.GetRewardPayouts E.GetLastRound.number).2 ∧
    (sortPayments (E.GetRewardPayouts E.GetLastRound.number).2).Sorted (· ≤ ·) := by
  obtain ⟨hblock, hflat⟩ := flatten_slices E blockTime hnum hpay hp hI hok hlen hen
  refine ⟨?_, hflat, List.perm_insertionSort _ _, List.sorted_insertionSort _ _⟩
  intro i hi1 hiB
  obtain ⟨k, rfl⟩ : ∃ k, i = k + 1 := ⟨i - 1, by omega⟩
  rw [hblock k (by push_cast at hiB; omega)]

/-- Witness of C1: `sampleEnv` has 10 payees at 3 a block, so 4 payout
heights; the 4 slices, glued in order, are the 10 payees sorted by script. -/
theorem coverage_partition_witness :
    blocksNeeded (payableEntries sampleEnv.GetLastRound)
      (nPayoutsPerBlock sampleEnv sampleEnv.GetLastRound) = 4 ∧
    ((List.range' 1 4).map
      (fun i => (@GetPaymentsForBlock orderByScript sampleEnv
        (payoutHeight sampleEnv i) 0).1)).flatten =
      @sortPayments orderByScript samplePayees :=
  ⟨by decide,
   (@coverage_partition orderByScript sampleEnv 0 (by decide) (by decide) (by decide)
      (by decide) (by decide) (by decide)
      (by
        intro i h1 h4
        have h4' : (i : Int) ≤ 4 := h4
        have : i = 1 ∨ i = 2 ∨ i = 3 ∨ i = 4 := by omega
        rcases this with rfl | rfl | rfl | rfl <;> decide)).2.1⟩

/-- C5 (determinism with respect to the fetch order). For a fixed round,
height and set of network constants, two databases whose calls for the latest
round succeed or fail alike and hand back the same payees in a different
order make `GetPaymentsForBlock` return the same verdict and the same slice,
element for element. -/
theorem fetch_order_irrelevant [LinearOrder CSmartRewardSnapshot] (E : Env)
    (g₁ g₂ : Int → Bool × CSmartRewardSnapshotList) (nHeight blockTime : Int)
    (hflag : (g₁ E.GetLastRound.number).1 = (g₂ E.GetLastRound.number).1)
    (hperm : (g₁ E.GetLastRound.number).2.Perm (g₂ E.GetLastRound.number).2) :
    GetPaymentsForBlock { E with GetRewardPayouts := g₁ } nHeight blockTime =
      GetPaymentsForBlock { E with GetRewardPayouts := g₂ } nHeight blockTime := by
  have hw := paymentsInWindow_congr E g₁ g₂ E.GetLastRound nHeight hflag hperm
  unfold GetPaymentsForBlock sporkDisabled beforeActivation delay
  simp only [hw]

/-- Witness of C5: the ten sample payees fetched in the stored order and in
the reverse order give the same slice at the payout height 222. -/
theorem fetch_order_witness :
    samplePayees.reverse.Perm samplePayees ∧
    @GetPaymentsForBlock orderByScript
        { sampleEnv with GetRewardPayouts := fun _ => (true, samplePayees.reverse) } 222 0 =
      @GetPaymentsForBlock orderByScript
        { sampleEnv with GetRewardPayouts := fun _ => (true, samplePayees) } 222 0 :=
  ⟨List.reverse_perm _,
   @fetch_order_irrelevant orderByScript sampleEnv
     (fun _ => (true, samplePayees.reverse)) (fun _ => (true, samplePayees)) 222 0
     rfl (List.reverse_perm _)⟩

/-- C4 (remainder policy). For a round with `n ≥ 1` payable entries and
`p ≥ 1` payouts a block (interval at least 1, a database that returns the `n`
payees, payout heights enabled and active): the number of heights at which
`GetPaymentsForBlock` returns `Valid` is `blocksNeeded n p`, which is the
ceiling of `n / p`; the slice at every payout height but the last has exactly
`p` payees; the slice at the last one has `n % p` payees when that is not zero
and `p` otherwise, and so never more than `p`. -/
theorem remainder_policy [LinearOrder CSmartRewardSnapshot] (E : Env) (blockTime : Int)
    (hnum : E.GetLastRound.number ≠ 0)
    (hpay : 1 ≤ E.GetLastRound.eligibleEntries - E.GetLastRound.disqualifiedEntries)
    (hp : 1 ≤ nPayoutsPerBlock E E.GetLastRound)
    (hI : 1 ≤ nPayoutInterval E E.GetLastRound)
    (hok : (E.GetRewardPayouts E.GetLastRound.number).1 = true)
    (hlen : ((E.GetRewardPayouts E.GetLastRound.number).2.length : Int) =
      E.GetLastRound.eligibleEntries - E.GetLastRound.disqualifiedEntries)
    (hen : ∀ i : Nat, 1 ≤ i →
      (i : Int) ≤
        blocksNeeded (payableEntries E.GetLastRound) (nPayoutsPerBlock E E.GetLastRound) →
      enabledAt E (payoutHeight E i)) :
    let n := E.GetLastRound.eligibleEntries - E.GetLastRound.disqualifiedEntries
    let p := nPayoutsPerBlock E E.GetLastRound
    (Set.ncard {h : Int | (GetPaymentsForBlock E h blockTime).2 = Result.Valid} : Int) =
      blocksNeeded n p ∧
    blocksNeeded n p = ⌈(n : ℚ) / (p : ℚ)⌉ ∧
    (∀ i : Nat, 1 ≤ i → (i : Int) < blocksNeeded n p →
      (((GetPaymentsForBlock E (payoutHeight E i) blockTime).1.length : Nat) : Int) = p) ∧
    (((GetPaymentsForBlock E (payoutHeight E (blocksNeeded n p).toNat) blockTime).1.length
        : Nat) : Int) = (if n % p ≠ 0 then n % p else p) ∧
    (((GetPaymentsForBlock E (payoutHeight E (blocksNeeded n p).toNat) blockTime).1.length
        : Nat) : Int) ≤ p := by
  intro n p
  have hn : 1 ≤ payableEntries E.GetLastRound := hpay
  obtain ⟨hB1, hB2, hB3, hB4, hB5⟩ := blocksNeeded_bounds n p hpay hp
  have hblock := (flatten_slices E blockTime hnum hn hp hI hok hlen hen).1
  have hB : blocksNeeded (payableEntries E.GetLastRound) (nPayoutsPerBlock E E.GetLastRound) =
      blocksNeeded n p := rfl
  rw [hB] at hblock
  have hlenS : ((sortPayments (E.GetRewardPayouts E.GetLastRound.number).2).length : Int) = n := by
    rw [length_sortPayments]; exact hlen
  have hpN : ((nPayoutsPerBlock E E.GetLastRound).toNat : Int) = p := Int.toNat_of_nonneg (by omega)
  have hrlt := Int.emod_lt_of_pos n (show 0 < p by omega)
  have hrnn := Int.emod_nonneg n (show p ≠ 0 by omega)
  -- the length of the slice of block `k`
  have hlenk : ∀ k : Nat, (k : Int) < blocksNeeded n p →
      (((GetPaymentsForBlock E (payoutHeight E (k + 1)) blockTime).1.length : Nat) : Int) =
        min p (n - k * p) := by
    intro k hk
    rw [hblock k hk]
    simp only [List.length_take, List.length_drop]
    have hkp : (k : Int) * p ≤ n := by nlinarith
    have : ((k * (nPayoutsPerBlock E E.GetLastRound).toNat : Nat) : Int) = k * p := by
      push_cast; rw [hpN]
    omega
  have hlastIdx : (blocksNeeded n p).toNat = ((blocksNeeded n p).toNat - 1) + 1 := by omega
  have hlastK : (((blocksNeeded n p).toNat - 1 : Nat) : Int) = blocksNeeded n p - 1 := by omega
  have hlast : (((GetPaymentsForBlock E (payoutHeight E (blocksNeeded n p).toNat)
      blockTime).1.length : Nat) : Int) = (if n % p ≠ 0 then n % p else p) := by
    rw [hlastIdx, hlenk _ (by omega), hlastK]
    split_ifs with hr
    · have := hB5 hr
      rw [min_eq_right (by omega)]; omega
    · have := hB4 (by push_neg at hr; exact hr)
      rw [min_eq_left (by nlinarith)]
  refine ⟨?_, blocksNeeded_eq_ceil n p hp, ?_, hlast, ?_⟩
  · rw [valid_heights_eq E blockTime hnum hn hp hI hok hlen hen,
      Set.ncard_image_of_injective _ (payoutHeight_injective E hI), Set.ncard_coe_Finset,
      Finset.card_range, hB]
    omega
  · intro i hi1 hiB
    obtain ⟨k, rfl⟩ : ∃ k, i = k + 1 := ⟨i - 1, by omega⟩
    push_cast at hiB
    rw [hlenk k (by omega)]
    apply min_eq_left
    have : ((k : Int) + 1) * p ≤ (blocksNeeded n p - 1) * p := by nlinarith
    nlinarith
  · rw [hlast]
    split_ifs <;> omega

/-- Witness of C4: on `sampleEnv`, with 10 eligible entries, none
disqualified and 3 payouts a block, there are 4 payout heights, and the slices
hold 3, 3, 3 and 1 payees. -/
theorem remainder_policy_witness :
    sampleEnv.GetLastRound.eligibleEntries = 10 ∧
    sampleEnv.GetLastRound.disqualifiedEntries = 0 ∧
    nPayoutsPerBlock sampleEnv sampleEnv.GetLastRound = 3 ∧
    (Set.ncard {h : Int | (@GetPaymentsForBlock orderByScript sampleEnv h 0).2 = Result.Valid}
      : Int) = 4 ∧
    (@GetPaymentsForBlock orderByScript sampleEnv 220 0).1.length = 3 ∧
    (@GetPaymentsForBlock orderByScript sampleEnv 222 0).1.length = 3 ∧
    (@GetPaymentsForBlock orderByScript sampleEnv 224 0).1.length = 3 ∧
    (@GetPaymentsForBlock orderByScript sampleEnv 226 0).1.length = 1 := by
  have h := @remainder_policy orderByScript sampleEnv 0 (by decide) (by decide) (by decide)
    (by decide) (by decide) (by decide)
    (by
      intro i h1 h4
      have h4' : (i : Int) ≤ 4 := h4
      have : i = 1 ∨ i = 2 ∨ i = 3 ∨ i = 4 := by omega
      rcases this with rfl | rfl | rfl | rfl <;> decide)
  refine ⟨rfl, rfl, rfl, h.1, ?_, ?_, ?_, ?_⟩
  · exact Int.ofNat_inj.mp (h.2.2.1 1 (by decide) (by decide))
  · exact Int.ofNat_inj.mp (h.2.2.1 2 (by decide) (by decide))
  · exact Int.ofNat_inj.mp (h.2.2.1 3 (by decide) (by decide))
  · exact Int.ofNat_inj.mp h.2.2.2.1

/-- C9 (validator verdict). When `GetPaymentsForBlock` returns `Valid` with a
non-empty slice, `Validate` returns `InvalidRewardList` exactly when some payee
of the slice with a reward above 0 has no coinbase output with the payee's
script and an amount less than 1000 away from the reward, and it returns
`Valid` otherwise. The position of the payee in the slice plays no role. -/
theorem validator_verdict [LinearOrder CSmartRewardSnapshot] (E : Env) (block : CBlock)
    (nHeight : Int) (slice : CSmartRewardSnapshotList)
    (hV : GetPaymentsForBlock E nHeight block.nTime = (slice, Result.Valid))
    (hne : slice ≠ []) :
    ((Validate E block nHeight).1 = Result.InvalidRewardList ↔
      ∃ s ∈ slice, 0 < s.reward ∧
        ∀ o ∈ coinbaseOutputs block, ¬ (o.scriptPubKey = s.id ∧
          |(s.reward : Int) - o.nValue| < 1000)) ∧
    ((¬ ∃ s ∈ slice, 0 < s.reward ∧
        ∀ o ∈ coinbaseOutputs block, ¬ (o.scriptPubKey = s.id ∧
          |(s.reward : Int) - o.nValue| < 1000)) →
      (Validate E block nHeight).1 = Result.Valid) := by
  rw [validate_eq_foldl E block nHeight slice hV hne]
  have hiff : (∃ s ∈ slice, 0 < s.reward ∧
        ∀ o ∈ coinbaseOutputs block, ¬ (o.scriptPubKey = s.id ∧
          |(s.reward : Int) - o.nValue| < 1000)) ↔
      ∃ s ∈ slice, s.reward ≠ 0 ∧
        (coinbaseOutputs block).find? (isPaymentOf s) = none := by
    constructor
    · rintro ⟨s, hs, h0, hno⟩
      exact ⟨s, hs, by omega, (find_eq_none_iff _ s).mpr hno⟩
    · rintro ⟨s, hs, h0, hno⟩
      exact ⟨s, hs, by omega, (find_eq_none_iff _ s).mp hno⟩
  rw [hiff]
  refine ⟨⟨?_, ?_⟩, ?_⟩
  · intro hinv
    by_contra hc
    rw [foldl_validateStep_keep _ _ _ hc] at hinv
    exact absurd hinv (by decide)
  · intro hex
    exact foldl_validateStep_invalid _ _ _ (Or.inr hex)
  · intro hc
    rw [foldl_validateStep_keep _ _ _ hc]

/-- Witness of C9: at height 222 of `sampleEnv` the slice is the payees with
scripts 4, 5 and 6; the coinbase of `blockMissingOne` pays the first and the
last, and `Validate` returns `InvalidRewardList` for the one in the middle. -/
theorem validator_verdict_witness :
    @GetPaymentsForBlock orderByScript sampleEnv 222 blockMissingOne.nTime =
      ([⟨[4], 40⟩, ⟨[5], 50⟩, ⟨[6], 60⟩], Result.Valid) ∧
    (@Validate orderByScript sampleEnv blockMissingOne 222).1 = Result.InvalidRewardList :=
  ⟨by decide,
   (@validator_verdict orderByScript sampleEnv blockMissingOne 222
      [⟨[4], 40⟩, ⟨[5], 50⟩, ⟨[6], 60⟩] (by decide) (by decide)).1.mpr
      ⟨⟨[5], 50⟩, by decide, by decide, by decide⟩⟩

/-- C10 (tolerance boundary). For a payee `s` of a `Valid` slice with a reward
`r > 0` and a coinbase output `o` with the script of `s` and amount `v`: `o`
counts as a payment of `s` exactly when `|r - v| < 1000`. When every output
with the script of `s` has `|r - v| = 1000`, in either direction, `Validate`
returns `InvalidRewardList`. When `o` is the only output with the script of `s`
and `|r - v| = 999`, the loop body at `s` keeps the verdict and adds `v` to the
verified amount, and for the slice that holds `s` alone `Validate` returns
`Valid` with verified amount `v`. -/
theorem tolerance_boundary [LinearOrder CSmartRewardSnapshot] (E : Env) (block : CBlock)
    (nHeight : Int) (slice : CSmartRewardSnapshotList) (s : CSmartRewardSnapshot) (o : CTxOut)
    (hV : GetPaymentsForBlock E nHeight block.nTime = (slice, Result.Valid))
    (hs : s ∈ slice) (hr : 0 < s.reward) (ho : o.scriptPubKey = s.id) :
    (isPaymentOf s o = true ↔ |(s.reward : Int) - o.nValue| < 1000) ∧
    ((∀ x ∈ coinbaseOutputs block, x.scriptPubKey = s.id →
        |(s.reward : Int) - x.nValue| = 1000) →
      (Validate E block nHeight).1 = Result.InvalidRewardList) ∧
    (o ∈ coinbaseOutputs block →
      (∀ x ∈ coinbaseOutputs block, x.scriptPubKey = s.id → x = o) →
      |(s.reward : Int) - o.nValue| = 999 →
      (∀ acc : Result × Int,
        validateStep (coinbaseOutputs block) acc s = (acc.1, acc.2 + o.nValue)) ∧
      (slice = [s] → Validate E block nHeight = (Result.Valid, o.nValue))) := by
  have hne : slice ≠ [] := List.ne_nil_of_mem hs
  have hmatch : isPaymentOf s o = true ↔ |(s.reward : Int) - o.nValue| < 1000 := by
    rw [isPaymentOf_iff]
    exact ⟨fun h => h.2, fun h => ⟨ho, h⟩⟩
  refine ⟨hmatch, ?_, ?_⟩
  · intro hall
    rw [validate_eq_foldl E block nHeight slice hV hne]
    apply foldl_validateStep_invalid
    right
    refine ⟨s, hs, by omega, (find_eq_none_iff _ s).mpr ?_⟩
    rintro x hx ⟨hxs, hlt⟩
    rw [hall x hx hxs] at hlt
    exact absurd hlt (by decide)
  · intro hmem honly h999
    have hpay : isPaymentOf s o = true := hmatch.mpr (by rw [h999]; decide)
    have hstep : ∀ acc : Result × Int,
        validateStep (coinbaseOutputs block) acc s = (acc.1, acc.2 + o.nValue) :=
      fun acc => validateStep_of_only_output _ acc s o (by omega) hmem honly hpay
    refine ⟨hstep, ?_⟩
    intro hsl
    rw [validate_eq_foldl E block nHeight slice hV hne, hsl, List.foldl_cons, List.foldl_nil,
      hstep]
    simp

/-- Witness of C10: at height 226 of `sampleEnv` the slice is the payee with
script 10 and reward 100. A coinbase whose output for that script is 1100 or
-900, 1000 away, is rejected; one whose output is 1099, 999 away, is
accepted, with verified amount 1099. -/
theorem tolerance_boundary_witness :
    (@Validate orderByScript sampleEnv blockOver1000 226).1 = Result.InvalidRewardList ∧
    (@Validate orderByScript sampleEnv blockUnder1000 226).1 = Result.InvalidRewardList ∧
    @Validate orderByScript sampleEnv blockOver999 226 = (Result.Valid, 1099) :=
  ⟨(@tolerance_boundary orderByScript sampleEnv blockOver1000 226 [⟨[10], 100⟩]
      ⟨[10], 100⟩ ⟨1100, [10]⟩ (by decide) (by decide) (by decide) rfl).2.1 (by decide),
   (@tolerance_boundary orderByScript sampleEnv blockUnder1000 226 [⟨[10], 100⟩]
      ⟨[10], 100⟩ ⟨-900, [10]⟩ (by decide) (by decide) (by decide) rfl).2.1 (by decide),
   ((@tolerance_boundary orderByScript sampleEnv blockOver999 226 [⟨[10], 100⟩]
      ⟨[10], 100⟩ ⟨1099, [10]⟩ (by decide) (by decide) (by decide) rfl).2.2
      (by decide) (by decide) (by decide)).2 rfl⟩

/-- C13 (fallback acceptance). At a height where `GetPaymentsForBlock` returns
`NoRewardBlock` or `NotSynced`, `Validate` returns `Valid` with verified
amount 0, whatever the block and its coinbase outputs are. -/
theorem fallback_acceptance [LinearOrder CSmartRewardSnapshot] (E : Env) (block : CBlock)
    (nHeight : Int)
    (h : (GetPaymentsForBlock E nHeight block.nTime).2 = Result.NoRewardBlock ∨
         (GetPaymentsForBlock E nHeight block.nTime).2 = Result.NotSynced) :
    Validate E block nHeight = (Result.Valid, 0) := by
  unfold Validate
  rcases h with h | h <;> simp [h]

/-- Witness of C13: height 219 of `sampleEnv` is below the payout window, and
a block without any transaction is accepted there with verified amount 0. -/
theorem fallback_acceptance_witness :
    (@GetPaymentsForBlock orderByScript sampleEnv 219 0).2 = Result.NoRewardBlock ∧
    @Validate orderByScript sampleEnv ⟨0, []⟩ 219 = (Result.Valid, 0) :=
  ⟨by decide, @fallback_acceptance orderByScript sampleEnv ⟨0, []⟩ 219 (Or.inl (by decide))⟩

/-- C14 (pass-through of `DatabaseError`). At a height where
`GetPaymentsForBlock` returns `DatabaseError`, `Validate` returns
`DatabaseError`, neither `Valid` nor `InvalidRewardList`, with verified amount
0, whatever the block and its coinbase outputs are. -/
theorem databaseError_passthrough [LinearOrder CSmartRewardSnapshot] (E : Env)
    (block : CBlock) (nHeight : Int)
    (h : (GetPaymentsForBlock E nHeight block.nTime).2 = Result.DatabaseError) :
    Validate E block nHeight = (Result.DatabaseError, 0) ∧
    (Validate E block nHeight).1 ≠ Result.Valid ∧
    (Validate E block nHeight).1 ≠ Result.InvalidRewardList := by
  have hv : Validate E block nHeight = (Result.DatabaseError, 0) := by
    unfold Validate
    simp [h]
  rw [hv]
  exact ⟨rfl, by decide, by decide⟩

/-- Witness of C14: `brokenEnv` stores 9 payees for a round with 10; at the
payout height 222 the selector returns `DatabaseError` and so does `Validate`,
here for a block whose coinbase pays the three payees of that height. -/
theorem databaseError_passthrough_witness :
    (@GetPaymentsForBlock orderByScript brokenEnv 222 0).2 = Result.DatabaseError ∧
    @Validate orderByScript brokenEnv ⟨0, [⟨[⟨40, [4]⟩, ⟨50, [5]⟩, ⟨60, [6]⟩]⟩]⟩ 222 =
      (Result.DatabaseError, 0) :=
  ⟨by decide,
   (@databaseError_passthrough orderByScript brokenEnv
      ⟨0, [⟨[⟨40, [4]⟩, ⟨50, [5]⟩, ⟨60, [6]⟩]⟩]⟩ 222 (by decide)).1⟩

/-- C20 (independence from the block time). `GetPaymentsForBlock` returns the
same list and verdict for any two values of `blockTime`; so the call of
`FillPayments`, with the time of the previous block, and the call of
`Validate`, with the time of the block itself, get the same slice at the same
height, and neither function depends on the time it passes on. -/
theorem blockTime_irrelevant [LinearOrder CSmartRewardSnapshot] (E : Env) (nHeight : Int) :
    (∀ t₁ t₂ : Int, GetPaymentsForBlock E nHeight t₁ = GetPaymentsForBlock E nHeight t₂) ∧
    (∀ (block : CBlock) (prevBlockTime : Int),
      GetPaymentsForBlock E nHeight prevBlockTime = GetPaymentsForBlock E nHeight block.nTime) ∧
    (∀ (coinbaseTx : CMutableTransaction) (voutSmartRewards : List CTxOut) (t₁ t₂ : Int),
      FillPayments E coinbaseTx nHeight t₁ voutSmartRewards =
        FillPayments E coinbaseTx nHeight t₂ voutSmartRewards) ∧
    (∀ (vtx : List CTransaction) (t₁ t₂ : Int),
      Validate E ⟨t₁, vtx⟩ nHeight = Validate E ⟨t₂, vtx⟩ nHeight) := by
  have h : ∀ t₁ t₂ : Int,
      GetPaymentsForBlock E nHeight t₁ = GetPaymentsForBlock E nHeight t₂ := by
    intro t₁ t₂
    unfold GetPaymentsForBlock
    rfl
  refine ⟨h, fun block prev => h _ _, ?_, ?_⟩
  · intro coinbaseTx voutSmartRewards t₁ t₂
    unfold FillPayments
    rw [h t₁ t₂]
  · intro vtx t₁ t₂
    unfold Validate coinbaseOutputs
    simp only [h t₁ t₂]

/-! The filling loop. -/

/-- The loop of `FillPayments` appends `rewardOutputs` of the slice to both
lists. -/
theorem foldl_fillStep (slice : CSmartRewardSnapshotList)
    (acc : CMutableTransaction × List CTxOut) :
    slice.foldl fillStep acc =
      (⟨acc.1.vout ++ rewardOutputs slice⟩, acc.2 ++ rewardOutputs slice) := by
  induction slice generalizing acc with
  | nil => simp [rewardOutputs]
  | cons a rest ih =>
    rw [List.foldl_cons, ih]
    by_cases ha : 0 < a.reward
    · simp [fillStep, rewardOutputs, ha, List.filter_cons]
    · simp [fillStep, rewardOutputs, ha, List.filter_cons]

/-- The two lists after `FillPayments`, from the verdict of the selector. -/
theorem fillPayments_eq [LinearOrder CSmartRewardSnapshot] (E : Env)
    (coinbaseTx : CMutableTransaction) (nHeight prevBlockTime : Int)
    (voutSmartRewards : List CTxOut) :
    FillPayments E coinbaseTx nHeight prevBlockTime voutSmartRewards =
      if (GetPaymentsForBlock E nHeight prevBlockTime).2 = Result.Valid then
        (⟨coinbaseTx.vout ++ rewardOutputs (GetPaymentsForBlock E nHeight prevBlockTime).1⟩,
          voutSmartRewards ++ rewardOutputs (GetPaymentsForBlock E nHeight prevBlockTime).1)
      else (coinbaseTx, voutSmartRewards) := by
  unfold FillPayments
  by_cases hv : (GetPaymentsForBlock E nHeight prevBlockTime).2 = Result.Valid
  · by_cases hl : (GetPaymentsForBlock E nHeight prevBlockTime).1.length ≠ 0
    · simp only [hv, hl, ne_eq, not_false_eq_true, and_self, if_true, foldl_fillStep]
    · have hnil : (GetPaymentsForBlock E nHeight prevBlockTime).1 = [] :=
        List.length_eq_zero.mp (by simpa using hl)
      simp [hv, hnil, rewardOutputs]
  · simp [hv]

/-- C15 (effect of the filler on the coinbase). When `GetPaymentsForBlock`
returns `Valid` with slice `S`, the output list of the coinbase after
`FillPayments` is the list `V` it had before, followed by one output
`(reward, script)` for each payee of `S` with a reward above 0, in slice
order; payees of reward 0 add nothing. When the verdict is not `Valid`, or
the slice is empty, the transaction is left as it was. -/
theorem filler_effect [LinearOrder CSmartRewardSnapshot] (E : Env)
    (coinbaseTx : CMutableTransaction) (nHeight prevBlockTime : Int)
    (voutSmartRewards : List CTxOut) :
    ((GetPaymentsForBlock E nHeight prevBlockTime).2 = Result.Valid →
      (FillPayments E coinbaseTx nHeight prevBlockTime voutSmartRewards).1.vout =
        coinbaseTx.vout ++
          ((GetPaymentsForBlock E nHeight prevBlockTime).1.filter
            (fun s => decide (0 < s.reward))).map (fun s => ⟨(s.reward : Int), s.id⟩)) ∧
    (((GetPaymentsForBlock E nHeight prevBlockTime).2 ≠ Result.Valid ∨
        (GetPaymentsForBlock E nHeight prevBlockTime).1 = []) →
      (FillPayments E coinbaseTx nHeight prevBlockTime voutSmartRewards).1 = coinbaseTx) := by
  rw [fillPayments_eq]
  constructor
  · intro hv
    simp only [hv, if_true]
    rfl
  · rintro (hv | hnil)
    · simp only [hv, if_false]
    · split
      · simp [hnil, rewardOutputs]
      · rfl

/-- Witness of C15: at height 222 of `sampleEnv` the slice is the payees with
scripts 4, 5 and 6 and rewards 40, 50 and 60; a coinbase with one output gets
the three payments appended. At height 223 it is left as it was. -/
theorem filler_effect_witness :
    (@FillPayments orderByScript sampleEnv ⟨[⟨5000, [77]⟩]⟩ 222 0 []).1.vout =
      [⟨5000, [77]⟩, ⟨40, [4]⟩, ⟨50, [5]⟩, ⟨60, [6]⟩] ∧
    (@FillPayments orderByScript sampleEnv ⟨[⟨5000, [77]⟩]⟩ 223 0 []).1 = ⟨[⟨5000, [77]⟩]⟩ :=
  ⟨((@filler_effect orderByScript sampleEnv ⟨[⟨5000, [77]⟩]⟩ 222 0 []).1 (by decide)).trans
      (by decide),
   (@filler_effect orderByScript sampleEnv ⟨[⟨5000, [77]⟩]⟩ 223 0 []).2
      (Or.inl (by decide))⟩

/-- Counterexample to C16 as stated: called at height 219 of `sampleEnv`, where
nothing is appended to the coinbase, with a list that already holds one
output, `FillPayments` hands back that output, not an empty list; called at
height 226 it hands back the old output followed by the appended one. -/
theorem filler_result_counterexample :
    (@FillPayments orderByScript sampleEnv ⟨[]⟩ 219 0 [⟨5, [99]⟩]).1.vout = [] ∧
    (@FillPayments orderByScript sampleEnv ⟨[]⟩ 219 0 [⟨5, [99]⟩]).2 ≠ [] ∧
    (@FillPayments orderByScript sampleEnv ⟨[]⟩ 226 0 [⟨5, [99]⟩]).1.vout = [⟨100, [10]⟩] ∧
    (@FillPayments orderByScript sampleEnv ⟨[]⟩ 226 0 [⟨5, [99]⟩]).2 =
      [⟨5, [99]⟩, ⟨100, [10]⟩] := by
  decide

/-- C16, amended (result of the filler). With `appended` the outputs that the
call added to the coinbase transaction, the list `voutSmartRewards` after
`FillPayments` is the list it held on entry followed by `appended`, in the
same order; when the caller passes an empty list it is exactly `appended`, and
it is empty when nothing was appended. -/
theorem filler_result [LinearOrder CSmartRewardSnapshot] (E : Env)
    (coinbaseTx : CMutableTransaction) (nHeight prevBlockTime : Int)
    (voutSmartRewards : List CTxOut) :
    let after := FillPayments E coinbaseTx nHeight prevBlockTime voutSmartRewards
    let appended := after.1.vout.drop coinbaseTx.vout.length
    after.1.vout = coinbaseTx.vout ++ appended ∧
    after.2 = voutSmartRewards ++ appended ∧
    (voutSmartRewards = [] → after.2 = appended) ∧
    (voutSmartRewards = [] → appended = [] → after.2 = []) := by
  intro after appended
  have h : after.1.vout = coinbaseTx.vout ++ appended ∧
      after.2 = voutSmartRewards ++ appended := by
    show (FillPayments E coinbaseTx nHeight prevBlockTime voutSmartRewards).1.vout =
        coinbaseTx.vout ++
          (FillPayments E coinbaseTx nHeight prevBlockTime voutSmartRewards).1.vout.drop
            coinbaseTx.vout.length ∧
      (FillPayments E coinbaseTx nHeight prevBlockTime voutSmartRewards).2 =
        voutSmartRewards ++
          (FillPayments E coinbaseTx nHeight prevBlockTime voutSmartRewards).1.vout.drop
            coinbaseTx.vout.length
    rw [fillPayments_eq]
    split
    · simp only [List.drop_left]
      exact ⟨trivial, trivial⟩
    · simp
  refine ⟨h.1, h.2, ?_, ?_⟩
  · intro hnil; rw [h.2, hnil, List.nil_append]
  · intro hnil happ; rw [h.2, hnil, happ]; rfl

/-! The verified amount. -/

/-- The search of line 170 finds `firstMatchingOutput`. -/
theorem find_isPaymentOf (vout : List CTxOut) (s : CSmartRewardSnapshot) :
    vout.find? (isPaymentOf s) = firstMatchingOutput vout s := by
  unfold firstMatchingOutput
  congr 1
  funext o
  by_cases h : o.scriptPubKey = s.id ∧ |(s.reward : Int) - o.nValue| < 1000
  · rw [(isPaymentOf_iff s o).mpr h, decide_eq_true h]
  · have : isPaymentOf s o = false := by
      cases hb : isPaymentOf s o with
      | false => rfl
      | true => exact absurd ((isPaymentOf_iff s o).mp hb) h
    rw [this, decide_eq_false h]

/-- What `firstMatchingOutput` is: the output that matches and has no matching
output before it in the coinbase; there is none exactly when no output
matches. -/
theorem firstMatchingOutput_spec (vout : List CTxOut) (s : CSmartRewardSnapshot) :
    (∀ o, firstMatchingOutput vout s = some o ↔
      (o.scriptPubKey = s.id ∧ |(s.reward : Int) - o.nValue| < 1000) ∧
      ∃ before after, vout = before ++ o :: after ∧
        ∀ x ∈ before, ¬ (x.scriptPubKey = s.id ∧ |(s.reward : Int) - x.nValue| < 1000)) ∧
    (firstMatchingOutput vout s = none ↔
      ∀ o ∈ vout, ¬ (o.scriptPubKey = s.id ∧ |(s.reward : Int) - o.nValue| < 1000)) := by
  constructor
  · intro o
    unfold firstMatchingOutput
    rw [List.find?_eq_some]
    simp only [decide_eq_true_eq, Bool.not_eq_true', decide_eq_false_iff_not]
  · rw [← find_isPaymentOf]
    exact find_eq_none_iff vout s

/-- One pass of the loop body adds `verifiedFor` to the amount. -/
theorem validateStep_snd (vout : List CTxOut) (acc : Result × Int)
    (s : CSmartRewardSnapshot) :
    (validateStep vout acc s).2 = acc.2 + verifiedFor vout s := by
  unfold validateStep verifiedFor
  rw [find_isPaymentOf]
  by_cases h0 : s.reward = 0
  · simp [h0]
  · have hpos : 0 < s.reward := by omega
    simp only [h0, if_false, hpos, if_true]
    cases firstMatchingOutput vout s with
    | none => simp
    | some o => simp

/-- The amount after the loop: what it was before, and `verifiedFor` of every
payee. -/
theorem foldl_validateStep_snd (vout : List CTxOut) (rewards : CSmartRewardSnapshotList)
    (acc : Result × Int) :
    (rewards.foldl (validateStep vout) acc).2 =
      acc.2 + (rewards.map (verifiedFor vout)).sum := by
  induction rewards generalizing acc with
  | nil => simp
  | cons a rest ih =>
    rw [List.foldl_cons, ih, validateStep_snd, List.map_cons, List.sum_cons]
    ring

/-- Leaving out the entries that add 0 does not change a sum. -/
theorem sum_map_filter_of_zero (l : CSmartRewardSnapshotList)
    (f : CSmartRewardSnapshot → Int) (keep : CSmartRewardSnapshot → Bool)
    (h : ∀ s ∈ l, keep s = false → f s = 0) :
    (l.map f).sum = ((l.filter keep).map f).sum := by
  induction l with
  | nil => rfl
  | cons a rest ih =>
    have hrest := ih (fun s hs => h s (List.mem_cons_of_mem _ hs))
    rw [List.map_cons, List.sum_cons, hrest, List.filter_cons]
    cases hk : keep a with
    | true => simp
    | false => simp [h a (List.mem_cons_self _ _) hk]

/-- C12 (verified amount). When `GetPaymentsForBlock` returns `Valid` with a
non-empty slice, the verified amount left by `Validate` is the sum over the
payees of the slice of: the amount of the first output, in coinbase order,
that matches the payee, when the reward is above 0 and such an output exists;
and 0 for a payee of reward 0 or without a matching output. The sum starts
from 0: the value is a result of the call alone. -/
theorem verified_amount [LinearOrder CSmartRewardSnapshot] (E : Env) (block : CBlock)
    (nHeight : Int) (slice : CSmartRewardSnapshotList)
    (hV : GetPaymentsForBlock E nHeight block.nTime = (slice, Result.Valid))
    (hne : slice ≠ []) :
    (Validate E block nHeight).2 =
      (slice.map (verifiedFor (coinbaseOutputs block))).sum ∧
    (∀ s ∈ slice, s.reward = 0 → verifiedFor (coinbaseOutputs block) s = 0) ∧
    (∀ s ∈ slice,
      (∀ o ∈ coinbaseOutputs block,
        ¬ (o.scriptPubKey = s.id ∧ |(s.reward : Int) - o.nValue| < 1000)) →
      verifiedFor (coinbaseOutputs block) s = 0) ∧
    (∀ s ∈ slice, 0 < s.reward → ∀ o before after,
      coinbaseOutputs block = before ++ o :: after →
      (o.scriptPubKey = s.id ∧ |(s.reward : Int) - o.nValue| < 1000) →
      (∀ x ∈ before, ¬ (x.scriptPubKey = s.id ∧ |(s.reward : Int) - x.nValue| < 1000)) →
      verifiedFor (coinbaseOutputs block) s = o.nValue) := by
  refine ⟨?_, ?_, ?_, ?_⟩
  · rw [validate_eq_foldl E block nHeight slice hV hne, foldl_validateStep_snd]
    simp
  · intro s _ h0
    simp [verifiedFor, h0]
  · intro s _ hno
    have := (firstMatchingOutput_spec (coinbaseOutputs block) s).2.mpr hno
    simp [verifiedFor, this]
  · intro s _ hpos o before after hsplit hmatch hfirst
    have := ((firstMatchingOutput_spec (coinbaseOutputs block) s).1 o).mpr
      ⟨hmatch, before, after, hsplit, hfirst⟩
    simp [verifiedFor, hpos, this]

/-- Witness of C12: at height 222 of `sampleEnv` the slice holds rewards 40, 50
and 60; the coinbase of `blockMissingOne` pays the first and the last, and the
verified amount is 100. -/
theorem verified_amount_witness :
    @GetPaymentsForBlock orderByScript sampleEnv 222 blockMissingOne.nTime =
      ([⟨[4], 40⟩, ⟨[5], 50⟩, ⟨[6], 60⟩], Result.Valid) ∧
    (@Validate orderByScript sampleEnv blockMissingOne 222).2 = 100 :=
  ⟨by decide,
   ((@verified_amount orderByScript sampleEnv blockMissingOne 222
      [⟨[4], 40⟩, ⟨[5], 50⟩, ⟨[6], 60⟩] (by decide) (by decide)).1).trans (by decide)⟩

/-- Counterexample to C11 as stated: at height 222 of `sampleEnv` the slice
holds three payees of rewards 40, 50 and 60. The coinbase of `blockPaysMore`
has a matching output for the first (1039, less than 1000 above 40) and for
the third (60) and none for the second. `Validate` returns
`InvalidRewardList` with verified amount 1099, the sum of the two outputs,
where the rewards of the two matched payees sum to 100. -/
theorem missing_payment_counterexample :
    @GetPaymentsForBlock orderByScript sampleEnv 222 blockPaysMore.nTime =
      ([⟨[4], 40⟩, ⟨[5], 50⟩, ⟨[6], 60⟩], Result.Valid) ∧
    isPaymentOf ⟨[4], 40⟩ ⟨1039, [4]⟩ = true ∧
    isPaymentOf ⟨[6], 60⟩ ⟨60, [6]⟩ = true ∧
    (coinbaseOutputs blockPaysMore).find? (isPaymentOf ⟨[5], 50⟩) = none ∧
    @Validate orderByScript sampleEnv blockPaysMore 222 = (Result.InvalidRewardList, 1099) ∧
    (@Validate orderByScript sampleEnv blockPaysMore 222).2 ≠ 40 + 60 := by
  decide

/-- C11, amended (missing-payment detection). When `GetPaymentsForBlock`
returns `Valid` and the coinbase has a matching output for every payee of the
slice with a reward above 0 but one, `missing`, then `Validate` returns
`InvalidRewardList`, and the verified amount is the sum, over the matched
payees, of the amount of the first matching output of each. Each such amount
is less than 1000 away from the reward of its payee, and the verified amount
is the sum of the rewards of the matched payees when these outputs pay the
rewards exactly. -/
theorem missing_payment [LinearOrder CSmartRewardSnapshot] (E : Env) (block : CBlock)
    (nHeight : Int) (slice : CSmartRewardSnapshotList) (missing : CSmartRewardSnapshot)
    (hV : GetPaymentsForBlock E nHeight block.nTime = (slice, Result.Valid))
    (hmem : missing ∈ slice) (hpos : 0 < missing.reward)
    (hno : ∀ o ∈ coinbaseOutputs block,
      ¬ (o.scriptPubKey = missing.id ∧ |(missing.reward : Int) - o.nValue| < 1000))
    (hothers : ∀ s ∈ slice, 0 < s.reward → s ≠ missing →
      ∃ o ∈ coinbaseOutputs block,
        o.scriptPubKey = s.id ∧ |(s.reward : Int) - o.nValue| < 1000) :
    let matched := slice.filter (fun s => decide (0 < s.reward ∧ s ≠ missing))
    (Validate E block nHeight).1 = Result.InvalidRewardList ∧
    (Validate E block nHeight).2 =
      (matched.map (verifiedFor (coinbaseOutputs block))).sum ∧
    (∀ s ∈ matched, ∃ o, firstMatchingOutput (coinbaseOutputs block) s = some o ∧
      verifiedFor (coinbaseOutputs block) s = o.nValue ∧
      |(s.reward : Int) - o.nValue| < 1000) ∧
    ((∀ s ∈ matched, ∀ o, firstMatchingOutput (coinbaseOutputs block) s = some o →
        o.nValue = (s.reward : Int)) →
      (Validate E block nHeight).2 = (matched.map (fun s => (s.reward : Int))).sum) := by
  intro matched
  have hne : slice ≠ [] := List.ne_nil_of_mem hmem
  have hmissing : firstMatchingOutput (coinbaseOutputs block) missing = none :=
    (firstMatchingOutput_spec _ missing).2.mpr hno
  have hverdict : (Validate E block nHeight).1 = Result.InvalidRewardList := by
    rw [validate_eq_foldl E block nHeight slice hV hne]
    apply foldl_validateStep_invalid
    exact Or.inr ⟨missing, hmem, by omega, (find_eq_none_iff _ missing).mpr hno⟩
  have hamount : (Validate E block nHeight).2 =
      (matched.map (verifiedFor (coinbaseOutputs block))).sum := by
    rw [validate_eq_foldl E block nHeight slice hV hne, foldl_validateStep_snd]
    simp only [zero_add]
    apply sum_map_filter_of_zero
    intro s _ hk
    have hk' : ¬ (0 < s.reward ∧ s ≠ missing) := by simpa using hk
    by_cases h0 : 0 < s.reward
    · have : s = missing := by
        by_contra hne'; exact hk' ⟨h0, hne'⟩
      rw [this]
      simp [verifiedFor, hmissing]
    · simp [verifiedFor, h0]
  have hfirst : ∀ s ∈ matched, ∃ o, firstMatchingOutput (coinbaseOutputs block) s = some o ∧
      verifiedFor (coinbaseOutputs block) s = o.nValue ∧
      |(s.reward : Int) - o.nValue| < 1000 := by
    intro s hs
    obtain ⟨hs1, hs2⟩ := List.mem_filter.mp hs
    have hs2' : 0 < s.reward ∧ s ≠ missing := by simpa using hs2
    cases hf : firstMatchingOutput (coinbaseOutputs block) s with
    | none =>
      obtain ⟨o, ho, hm⟩ := hothers s hs1 hs2'.1 hs2'.2
      exact absurd hm ((firstMatchingOutput_spec _ s).2.mp hf o ho)
    | some o =>
      refine ⟨o, rfl, ?_, (((firstMatchingOutput_spec _ s).1 o).mp hf).1.2⟩
      simp [verifiedFor, hs2'.1, hf]
  refine ⟨hverdict, hamount, hfirst, ?_⟩
  intro hexact
  rw [hamount]
  congr 1
  apply List.map_congr_left
  intro s hs
  obtain ⟨o, ho, hv, -⟩ := hfirst s hs
  rw [hv, hexact s hs o ho]

/-- Witness of C11: at height 222 of `sampleEnv`, with the coinbase of
`blockMissingOne`, which pays 40 and 60 to the first and the third payee and
nothing to the second, `Validate` returns `InvalidRewardList` and the verified
amount is the sum over the two matched payees. -/
theorem missing_payment_witness :
    (@Validate orderByScript sampleEnv blockMissingOne 222).1 = Result.InvalidRewardList ∧
    (@Validate orderByScript sampleEnv blockMissingOne 222).2 =
      ((([⟨[4], 40⟩, ⟨[5], 50⟩, ⟨[6], 60⟩] : CSmartRewardSnapshotList).filter
          (fun s => decide (0 < s.reward ∧ s ≠ ⟨[5], 50⟩))).map
        (verifiedFor (coinbaseOutputs blockMissingOne))).sum :=
  have h := @missing_payment orderByScript sampleEnv blockMissingOne 222
    [⟨[4], 40⟩, ⟨[5], 50⟩, ⟨[6], 60⟩] ⟨[5], 50⟩ (by decide) (by decide) (by decide)
    (by decide) (by decide)
  ⟨h.1, h.2.1⟩

/-! The indices of the slice. -/

/-- The window body, written with the variables of the source. -/
theorem paymentsInWindow_unfold [LinearOrder CSmartRewardSnapshot] (E : Env)
    (round : CSmartRewardRound) (nHeight : Int) :
    paymentsInWindow E round nHeight =
      if nHeight ≤ lastRoundBlock E round ∧
          (lastRoundBlock E round - nHeight).tmod (nPayoutInterval E round) = 0 then
        if (E.GetRewardPayouts round.number).1 = false ∨
            ((E.GetRewardPayouts round.number).2.length : Int) ≠
              round.eligibleEntries - round.disqualifiedEntries then
          ([], Result.DatabaseError)
        else if endIndex E round nHeight >
            ((sortPayments (E.GetRewardPayouts round.number).2).length : Int) then
          ([], Result.DatabaseError)
        else
          (subVector (sortPayments (E.GetRewardPayouts round.number).2)
            (startIndex E round nHeight) (endIndex E round nHeight), Result.Valid)
      else ([], Result.NoRewardBlock) := rfl

/-- The quotient of line 97 lies between 0 and `B - 1`, for an interval of
any sign. -/
theorem quotient_bounds (S I B h : Int) (hB : 1 ≤ B) (hS : S ≤ h)
    (hL : h ≤ S + (B - 1) * I) (hm : (S + (B - 1) * I - h).tmod I = 0) :
    0 ≤ (S + (B - 1) * I - h).tdiv I ∧ (S + (B - 1) * I - h).tdiv I ≤ B - 1 := by
  rcases lt_trichotomy I 0 with hI | hI | hI
  · have h1 : (B - 1) * I ≤ 0 := by nlinarith
    have h2 : S + (B - 1) * I - h = 0 := by omega
    rw [h2, Int.zero_tdiv]; omega
  · subst hI
    rw [Int.tdiv_zero]; omega
  · have hnn : 0 ≤ S + (B - 1) * I - h := by omega
    rw [tmod_eq_emod_of_nonneg _ _ hnn] at hm
    obtain ⟨k, hk, hkh⟩ := exists_block_index S I B h (by omega) hS hL hm
    have hdiff : S + (B - 1) * I - h = (B - 1 - k) * I := by rw [hkh]; ring
    rw [hdiff, tdiv_eq_ediv_of_nonneg _ _ (mul_nonneg (by omega) (by omega)),
      Int.mul_ediv_cancel _ (by omega)]
    omega

/-- The payee count of the block of index `k` (counted from 0) and the end of
its range. -/
theorem index_bounds (n p B k : Int) (hn : 1 ≤ n) (hp : 1 ≤ p)
    (hB : B = blocksNeeded n p) (hk0 : 0 ≤ k) (hk : k < B) :
    1 ≤ (if k + 1 = B ∧ n % p ≠ 0 then n % p else p) ∧
    (if k + 1 = B ∧ n % p ≠ 0 then n % p else p) ≤ p ∧
    k * p + (if k + 1 = B ∧ n % p ≠ 0 then n % p else p) ≤ n ∧
    0 ≤ k * p := by
  obtain ⟨-, -, -, hB4, hB5⟩ := blocksNeeded_bounds n p hn hp
  rw [← hB] at hB4 hB5
  have hrlt := Int.emod_lt_of_pos n (show 0 < p by omega)
  have hrnn := Int.emod_nonneg n (show p ≠ 0 by omega)
  have hkp : 0 ≤ k * p := mul_nonneg hk0 (by omega)
  by_cases hlast : k + 1 = B ∧ n % p ≠ 0
  · rw [if_pos hlast]
    have hN := hB5 hlast.2
    rw [← hlast.1] at hN
    have : k + 1 - 1 = k := by ring
    rw [this] at hN
    refine ⟨by omega, by omega, by omega, hkp⟩
  · rw [if_neg hlast]
    refine ⟨hp, le_refl _, ?_, hkp⟩
    by_cases hkB : k + 1 = B
    · have hr : n % p = 0 := by
        by_contra hne; exact hlast ⟨hkB, hne⟩
      have := hB4 hr
      rw [← hkB] at this
      linarith
    · obtain ⟨-, hB2, -, -, -⟩ := blocksNeeded_bounds n p hn hp
      rw [← hB] at hB2
      have hk2 : k + 1 ≤ B - 1 := by omega
      nlinarith

/-- The length of a sub-vector that lies inside the vector. -/
theorem length_subVector (v : CSmartRewardSnapshotList) (a b : Int) (ha : 0 ≤ a)
    (hab : a ≤ b) (hb : b ≤ (v.length : Int)) :
    ((subVector v a b).length : Int) = b - a := by
  unfold subVector
  rw [List.length_drop, List.length_take]
  omega

/-- At a height that passes the test of line 84, with the payees of the round
fetched, the indices lie inside the list and the verdict is `Valid`. -/
theorem paymentsInWindow_of_test [LinearOrder CSmartRewardSnapshot] (E : Env)
    (round : CSmartRewardRound) (nHeight : Int)
    (hn : 1 ≤ round.eligibleEntries - round.disqualifiedEntries)
    (hp : 1 ≤ nPayoutsPerBlock E round)
    (hopen : round.endBlockHeight + delay E ≤ nHeight)
    (htest : heightTest E round nHeight)
    (hok : (E.GetRewardPayouts round.number).1 = true)
    (hlen : ((E.GetRewardPayouts round.number).2.length : Int) =
      round.eligibleEntries - round.disqualifiedEntries) :
    1 ≤ rewardBlock E round nHeight ∧
    rewardBlock E round nHeight ≤ rewardBlocks E round ∧
    0 ≤ startIndex E round nHeight ∧
    startIndex E round nHeight < endIndex E round nHeight ∧
    endIndex E round nHeight - startIndex E round nHeight ≤ nPayoutsPerBlock E round ∧
    endIndex E round nHeight ≤ round.eligibleEntries - round.disqualifiedEntries ∧
    paymentsInWindow E round nHeight =
      (subVector (sortPayments (E.GetRewardPayouts round.number).2)
        (startIndex E round nHeight) (endIndex E round nHeight), Result.Valid) := by
  have hrb : rewardBlocks E round =
      blocksNeeded (round.eligibleEntries - round.disqualifiedEntries)
        (nPayoutsPerBlock E round) := rewardBlocks_eq _ _ (by omega)
  have hmod := tmod_eq_emod_of_nonneg (round.eligibleEntries - round.disqualifiedEntries)
    (nPayoutsPerBlock E round) (by omega)
  obtain ⟨hB1, -, -, -, -⟩ := blocksNeeded_bounds _ _ hn hp
  rw [← hrb] at hB1
  obtain ⟨ht1, ht2⟩ := htest
  have hq := quotient_bounds (round.endBlockHeight + delay E) (nPayoutInterval E round)
    (rewardBlocks E round) nHeight hB1 hopen ht1 ht2
  have hidx := index_bounds (round.eligibleEntries - round.disqualifiedEntries)
    (nPayoutsPerBlock E round) (rewardBlocks E round)
    (rewardBlock E round nHeight - 1) hn hp hrb
    (by unfold rewardBlock lastRoundBlock; omega)
    (by unfold rewardBlock lastRoundBlock; omega)
  have hcancel : rewardBlock E round nHeight - 1 + 1 = rewardBlock E round nHeight := by ring
  rw [hcancel, ← hmod] at hidx
  obtain ⟨hi1, hi2, hi3, hi4⟩ := hidx
  have hbp : blockPayees E round nHeight =
      if rewardBlock E round nHeight = rewardBlocks E round ∧
          (round.eligibleEntries - round.disqualifiedEntries).tmod (nPayoutsPerBlock E round) ≠ 0
      then (round.eligibleEntries - round.disqualifiedEntries).tmod (nPayoutsPerBlock E round)
      else nPayoutsPerBlock E round := rfl
  rw [← hbp] at hi1 hi2 hi3
  have hstart : startIndex E round nHeight =
      (rewardBlock E round nHeight - 1) * nPayoutsPerBlock E round := rfl
  have hend : endIndex E round nHeight =
      startIndex E round nHeight + blockPayees E round nHeight := rfl
  have hsl := length_sortPayments (E.GetRewardPayouts round.number).2
  have hnot : ¬ ((E.GetRewardPayouts round.number).1 = false ∨
      ((E.GetRewardPayouts round.number).2.length : Int) ≠
        round.eligibleEntries - round.disqualifiedEntries) := by
    rw [hok]; simp [hlen]
  have hin : ¬ (endIndex E round nHeight >
      ((sortPayments (E.GetRewardPayouts round.number).2).length : Int)) := by
    rw [hsl, hlen, hend, hstart]; omega
  refine ⟨?_, ?_, ?_, ?_, ?_, ?_, ?_⟩
  · unfold rewardBlock lastRoundBlock; omega
  · unfold rewardBlock lastRoundBlock; omega
  · rw [hstart]; exact hi4
  · rw [hend]; omega
  · rw [hend]; omega
  · rw [hend, hstart]; exact hi3
  · rw [paymentsInWindow_unfold, if_pos ⟨ht1, ht2⟩, if_neg hnot, if_neg hin]

/-- C17 (the bounds check cannot fire). With at least 1 payout a block and an
interval of at least 1, at a height that reaches the slice computation (the
height is enabled and active, the round has a number other than 0 and more
eligible than disqualified entries, the window is open, the test of line 84
passes and the fetched list has exactly
`payable = eligibleEntries - disqualifiedEntries` entries), the indices
satisfy `0 ≤ startIndex < endIndex ≤ payable`: the branch
`endIndex > roundPayments.size()` is not taken, the verdict is `Valid`, and
the sub-range holds `endIndex - startIndex` elements of the list. -/
theorem bounds_check_unreachable [LinearOrder CSmartRewardSnapshot] (E : Env)
    (nHeight blockTime : Int)
    (hen : enabledAt E nHeight)
    (hnum : E.GetLastRound.number ≠ 0)
    (hdeg : E.GetLastRound.disqualifiedEntries < E.GetLastRound.eligibleEntries)
    (hopen : E.GetLastRound.endBlockHeight + delay E ≤ nHeight)
    (hp : 1 ≤ nPayoutsPerBlock E E.GetLastRound)
    (hI : 1 ≤ nPayoutInterval E E.GetLastRound)
    (htest : heightTest E E.GetLastRound nHeight)
    (hok : (E.GetRewardPayouts E.GetLastRound.number).1 = true)
    (hlen : ((E.GetRewardPayouts E.GetLastRound.number).2.length : Int) =
      E.GetLastRound.eligibleEntries - E.GetLastRound.disqualifiedEntries) :
    let roundPayments := sortPayments (E.GetRewardPayouts E.GetLastRound.number).2
    0 ≤ startIndex E E.GetLastRound nHeight ∧
    startIndex E E.GetLastRound nHeight < endIndex E E.GetLastRound nHeight ∧
    endIndex E E.GetLastRound nHeight ≤
      E.GetLastRound.eligibleEntries - E.GetLastRound.disqualifiedEntries ∧
    ¬ (endIndex E E.GetLastRound nHeight > (roundPayments.length : Int)) ∧
    GetPaymentsForBlock E nHeight blockTime =
      (subVector roundPayments (startIndex E E.GetLastRound nHeight)
        (endIndex E E.GetLastRound nHeight), Result.Valid) ∧
    ((subVector roundPayments (startIndex E E.GetLastRound nHeight)
        (endIndex E E.GetLastRound nHeight)).length : Int) =
      endIndex E E.GetLastRound nHeight - startIndex E E.GetLastRound nHeight := by
  intro roundPayments
  obtain ⟨-, -, h0, hlt, -, hle, hres⟩ :=
    paymentsInWindow_of_test E E.GetLastRound nHeight (by omega) hp hopen htest hok hlen
  have hsl : (roundPayments.length : Int) =
      E.GetLastRound.eligibleEntries - E.GetLastRound.disqualifiedEntries := by
    show ((sortPayments (E.GetRewardPayouts E.GetLastRound.number).2).length : Int) = _
    rw [length_sortPayments]; exact hlen
  refine ⟨h0, hlt, hle, by omega, ?_, ?_⟩
  · rw [getPayments_eq_paymentsInWindow E nHeight blockTime hen hnum hopen hdeg, hres]
  · exact length_subVector _ _ _ h0 (by omega) (by omega)

/-- Witness of C17: at the payout heights 222 and 226 of `sampleEnv` the
indices are `3 < 6 ≤ 10` and `9 < 10 ≤ 10`. -/
theorem bounds_check_witness :
    (startIndex sampleEnv sampleEnv.GetLastRound 222 = 3 ∧
      endIndex sampleEnv sampleEnv.GetLastRound 222 = 6) ∧
    (startIndex sampleEnv sampleEnv.GetLastRound 226 = 9 ∧
      endIndex sampleEnv sampleEnv.GetLastRound 226 = 10) ∧
    (0 ≤ startIndex sampleEnv sampleEnv.GetLastRound 226 ∧
      startIndex sampleEnv sampleEnv.GetLastRound 226 <
        endIndex sampleEnv sampleEnv.GetLastRound 226 ∧
      endIndex sampleEnv sampleEnv.GetLastRound 226 ≤
        sampleEnv.GetLastRound.eligibleEntries - sampleEnv.GetLastRound.disqualifiedEntries) :=
  have h := @bounds_check_unreachable orderByScript sampleEnv 226 0 (by decide) (by decide)
    (by decide) (by decide) (by decide) (by decide) (by decide) (by decide) (by decide)
  ⟨by decide, by decide, h.1, h.2.1, h.2.2.1⟩

/-! The shape of every result. -/

/-- The block time plays no role in the selector. -/
theorem getPayments_time [LinearOrder CSmartRewardSnapshot] (E : Env) (nHeight t₁ t₂ : Int) :
    GetPaymentsForBlock E nHeight t₁ = GetPaymentsForBlock E nHeight t₂ := by
  unfold GetPaymentsForBlock
  rfl

/-- With at least 1 payout a block, a call ends in one of three ways: an empty
list with `NoRewardBlock`, an empty list with `DatabaseError`, or `Valid` with
between 1 and `nPayoutsPerBlock` payees. -/
theorem getPayments_cases [LinearOrder CSmartRewardSnapshot] (E : Env)
    (nHeight blockTime : Int) (hp : 1 ≤ nPayoutsPerBlock E E.GetLastRound) :
    GetPaymentsForBlock E nHeight blockTime = ([], Result.NoRewardBlock) ∨
    GetPaymentsForBlock E nHeight blockTime = ([], Result.DatabaseError) ∨
    ((GetPaymentsForBlock E nHeight blockTime).2 = Result.Valid ∧
      1 ≤ (GetPaymentsForBlock E nHeight blockTime).1.length ∧
      ((GetPaymentsForBlock E nHeight blockTime).1.length : Int) ≤
        nPayoutsPerBlock E E.GetLastRound) := by
  by_cases h1 : nHeight > E.sporkValue
  · exact Or.inl (getPayments_of_disabled E nHeight blockTime h1)
  by_cases h2 : (E.MainNet = true ∧
      nHeight < E.HF_V1_2_SMARTREWARD_HEIGHT + E.nRewardsBlocksPerRound) ∨
      (E.TestNet = true ∧ nHeight < E.nFirstRoundEndBlock_Testnet)
  · exact Or.inl (getPayments_of_beforeActivation E nHeight blockTime h2)
  by_cases h3 : E.GetLastRound.number = 0
  · exact Or.inl (getPayments_of_noRound E nHeight blockTime h3)
  by_cases h4 : nHeight < E.GetLastRound.endBlockHeight + delay E
  · exact Or.inl (getPayments_of_windowClosed E nHeight blockTime h4)
  by_cases h5 : E.GetLastRound.eligibleEntries = E.GetLastRound.disqualifiedEntries ∨
      E.GetLastRound.disqualifiedEntries > E.GetLastRound.eligibleEntries
  · exact Or.inl (getPayments_of_degenerate E nHeight blockTime h5)
  have hen : enabledAt E nHeight :=
    ⟨by omega, fun hc => h2 (Or.inl hc), fun hc => h2 (Or.inr hc)⟩
  rw [getPayments_eq_paymentsInWindow E nHeight blockTime hen h3 (by omega) (by omega)]
  by_cases htest : heightTest E E.GetLastRound nHeight
  · have htest' : nHeight ≤ lastRoundBlock E E.GetLastRound ∧
        (lastRoundBlock E E.GetLastRound - nHeight).tmod (nPayoutInterval E E.GetLastRound) = 0 :=
      htest
    by_cases hst : (E.GetRewardPayouts E.GetLastRound.number).1 = false ∨
        ((E.GetRewardPayouts E.GetLastRound.number).2.length : Int) ≠
          E.GetLastRound.eligibleEntries - E.GetLastRound.disqualifiedEntries
    · right; left
      rw [paymentsInWindow_unfold, if_pos htest', if_pos hst]
    · right; right
      have hok : (E.GetRewardPayouts E.GetLastRound.number).1 = true := by
        by_contra hc; exact hst (Or.inl (by simpa using hc))
      have hlen : ((E.GetRewardPayouts E.GetLastRound.number).2.length : Int) =
          E.GetLastRound.eligibleEntries - E.GetLastRound.disqualifiedEntries := by
        by_contra hc; exact hst (Or.inr hc)
      obtain ⟨-, -, h0, hlt, hcount, hle, hres⟩ :=
        paymentsInWindow_of_test E E.GetLastRound nHeight (by omega) hp (by omega) htest
          hok hlen
      have hl := length_subVector (sortPayments (E.GetRewardPayouts E.GetLastRound.number).2)
        (startIndex E E.GetLastRound nHeight) (endIndex E E.GetLastRound nHeight) h0
        (by omega) (by rw [length_sortPayments, hlen]; exact hle)
      rw [hres]
      refine ⟨rfl, ?_, ?_⟩
      · show 1 ≤ (subVector _ _ _).length
        omega
      · show ((subVector _ _ _).length : Int) ≤ _
        omega
  · left
    have htest' : ¬ (nHeight ≤ lastRoundBlock E E.GetLastRound ∧
        (lastRoundBlock E E.GetLastRound - nHeight).tmod (nPayoutInterval E E.GetLastRound) = 0) :=
      htest
    rw [paymentsInWindow_unfold, if_neg htest']

/-- C18 (shape of the selector's result). With at least 1 payout a block, the
verdict of `GetPaymentsForBlock` is `Valid`, `NoRewardBlock` or
`DatabaseError`, never `NotSynced` or `InvalidRewardList`; the returned list is
non-empty exactly when the verdict is `Valid`, and then it holds between 1 and
`nPayoutsPerBlock` payees. So the tests of `rewards.size()` in `FillPayments`
and `Validate` change nothing, and the `NotSynced` test of `Validate` never
decides: both functions are what they would be without these tests. -/
theorem selector_invariant [LinearOrder CSmartRewardSnapshot] (E : Env)
    (nHeight blockTime : Int) (hp : 1 ≤ nPayoutsPerBlock E E.GetLastRound) :
    ((GetPaymentsForBlock E nHeight blockTime).2 = Result.Valid ∨
      (GetPaymentsForBlock E nHeight blockTime).2 = Result.NoRewardBlock ∨
      (GetPaymentsForBlock E nHeight blockTime).2 = Result.DatabaseError) ∧
    (GetPaymentsForBlock E nHeight blockTime).2 ≠ Result.NotSynced ∧
    (GetPaymentsForBlock E nHeight blockTime).2 ≠ Result.InvalidRewardList ∧
    ((GetPaymentsForBlock E nHeight blockTime).1 ≠ [] ↔
      (GetPaymentsForBlock E nHeight blockTime).2 = Result.Valid) ∧
    ((GetPaymentsForBlock E nHeight blockTime).2 = Result.Valid →
      1 ≤ (GetPaymentsForBlock E nHeight blockTime).1.length ∧
      ((GetPaymentsForBlock E nHeight blockTime).1.length : Int) ≤
        nPayoutsPerBlock E E.GetLastRound) ∧
    (∀ (coinbaseTx : CMutableTransaction) (voutSmartRewards : List CTxOut),
      FillPayments E coinbaseTx nHeight blockTime voutSmartRewards =
        if (GetPaymentsForBlock E nHeight blockTime).2 = Result.Valid then
          (GetPaymentsForBlock E nHeight blockTime).1.foldl fillStep
            (coinbaseTx, voutSmartRewards)
        else (coinbaseTx, voutSmartRewards)) ∧
    (∀ vtx : List CTransaction,
      Validate E ⟨blockTime, vtx⟩ nHeight =
        if (GetPaymentsForBlock E nHeight blockTime).2 = Result.Valid then
          (GetPaymentsForBlock E nHeight blockTime).1.foldl
            (validateStep (coinbaseOutputs ⟨blockTime, vtx⟩)) (Result.Valid, 0)
        else if (GetPaymentsForBlock E nHeight blockTime).2 = Result.NoRewardBlock then
          (Result.Valid, 0)
        else ((GetPaymentsForBlock E nHeight blockTime).2, 0)) := by
  have hfill : ∀ (coinbaseTx : CMutableTransaction) (voutSmartRewards : List CTxOut),
      FillPayments E coinbaseTx nHeight blockTime voutSmartRewards =
        if (GetPaymentsForBlock E nHeight blockTime).2 = Result.Valid then
          (GetPaymentsForBlock E nHeight blockTime).1.foldl fillStep
            (coinbaseTx, voutSmartRewards)
        else (coinbaseTx, voutSmartRewards) := by
    intro coinbaseTx voutSmartRewards
    rw [fillPayments_eq]
    split
    · rw [foldl_fillStep]
    · rfl
  rcases getPayments_cases E nHeight blockTime hp with h | h | ⟨hv, h1, h2⟩
  · refine ⟨?_, ?_, ?_, ?_, ?_, hfill, ?_⟩
    · rw [h]; exact Or.inr (Or.inl rfl)
    · rw [h]; decide
    · rw [h]; decide
    · rw [h]; simp
    · rw [h]; intro hc; exact absurd hc (by decide)
    · intro vtx
      unfold Validate
      simp [h]
  · refine ⟨?_, ?_, ?_, ?_, ?_, hfill, ?_⟩
    · rw [h]; exact Or.inr (Or.inr rfl)
    · rw [h]; decide
    · rw [h]; decide
    · rw [h]; simp
    · rw [h]; intro hc; exact absurd hc (by decide)
    · intro vtx
      unfold Validate
      simp [h]
  · have hne : (GetPaymentsForBlock E nHeight blockTime).1 ≠ [] := by
      intro hc
      rw [hc] at h1
      exact absurd h1 (by decide)
    refine ⟨Or.inl hv, ?_, ?_, ?_, fun _ => ⟨h1, h2⟩, hfill, ?_⟩
    · rw [hv]; decide
    · rw [hv]; decide
    · exact ⟨fun _ => hv, fun _ => hne⟩
    · intro vtx
      have hl : (GetPaymentsForBlock E nHeight blockTime).1.length ≠ 0 := by omega
      unfold Validate
      simp only [hv, hl, ne_eq, not_false_eq_true, and_self, if_true]

/-- Witness of C18: on `sampleEnv`, with 3 payouts a block, the call at height
226 is `Valid` with one payee, and the call at height 225 is `NoRewardBlock`
with none. -/
theorem selector_invariant_witness :
    nPayoutsPerBlock sampleEnv sampleEnv.GetLastRound = 3 ∧
    (@GetPaymentsForBlock orderByScript sampleEnv 226 0).1 ≠ [] ∧
    ((@GetPaymentsForBlock orderByScript sampleEnv 225 0).1 ≠ [] ↔
      (@GetPaymentsForBlock orderByScript sampleEnv 225 0).2 = Result.Valid) :=
  ⟨by decide,
   (@selector_invariant orderByScript sampleEnv 226 0 (by decide)).2.2.2.1.mpr (by decide),
   (@selector_invariant orderByScript sampleEnv 225 0 (by decide)).2.2.2.1⟩

/-! Filling, then validating. -/

/-- The selector gives one of three verdicts, whatever the constants are. -/
theorem getPayments_verdicts [LinearOrder CSmartRewardSnapshot] (E : Env)
    (nHeight blockTime : Int) :
    (GetPaymentsForBlock E nHeight blockTime).2 = Result.Valid ∨
    (GetPaymentsForBlock E nHeight blockTime).2 = Result.NoRewardBlock ∨
    (GetPaymentsForBlock E nHeight blockTime).2 = Result.DatabaseError := by
  unfold GetPaymentsForBlock
  simp only [paymentsInWindow_unfold]
  split_ifs <;> simp

/-- Every payee with a reward above 0 has its output among `rewardOutputs`. -/
theorem mem_rewardOutputs (slice : CSmartRewardSnapshotList) (s : CSmartRewardSnapshot)
    (hs : s ∈ slice) (hpos : 0 < s.reward) :
    (⟨(s.reward : Int), s.id⟩ : CTxOut) ∈ rewardOutputs slice := by
  unfold rewardOutputs
  exact List.mem_map.mpr ⟨s, List.mem_filter.mpr ⟨hs, by simpa using hpos⟩, rfl⟩

/-- C19 (fill, then validate). For a block whose coinbase outputs are those of
the transaction left by `FillPayments` at a height, `Validate` at the same
height and on the same environment does not return `InvalidRewardList`; it
returns `Valid` whenever the selector returns `Valid` or `NoRewardBlock`; and
when the selector returns `Valid`, every payee of the slice with a reward
above 0 has a matching coinbase output. -/
theorem fill_then_validate [LinearOrder CSmartRewardSnapshot] (E : Env)
    (coinbaseTx : CMutableTransaction) (nHeight prevBlockTime : Int)
    (voutSmartRewards : List CTxOut) (block : CBlock)
    (hblock : coinbaseOutputs block =
      (FillPayments E coinbaseTx nHeight prevBlockTime voutSmartRewards).1.vout) :
    (Validate E block nHeight).1 ≠ Result.InvalidRewardList ∧
    (((GetPaymentsForBlock E nHeight block.nTime).2 = Result.Valid ∨
        (GetPaymentsForBlock E nHeight block.nTime).2 = Result.NoRewardBlock) →
      (Validate E block nHeight).1 = Result.Valid) ∧
    ((GetPaymentsForBlock E nHeight block.nTime).2 = Result.Valid →
      ∀ s ∈ (GetPaymentsForBlock E nHeight block.nTime).1, 0 < s.reward →
        ∃ o ∈ coinbaseOutputs block,
          o.scriptPubKey = s.id ∧ |(s.reward : Int) - o.nValue| < 1000) := by
  have htime := getPayments_time E nHeight prevBlockTime block.nTime
  have hmatched : (GetPaymentsForBlock E nHeight block.nTime).2 = Result.Valid →
      ∀ s ∈ (GetPaymentsForBlock E nHeight block.nTime).1, 0 < s.reward →
        ∃ o ∈ coinbaseOutputs block,
          o.scriptPubKey = s.id ∧ |(s.reward : Int) - o.nValue| < 1000 := by
    intro hv s hs hpos
    rw [hblock, fillPayments_eq, htime, if_pos hv]
    exact ⟨⟨(s.reward : Int), s.id⟩,
      List.mem_append_right _ (mem_rewardOutputs _ s hs hpos), rfl, by simp⟩
  have hvalid : (GetPaymentsForBlock E nHeight block.nTime).2 = Result.Valid →
      (Validate E block nHeight).1 = Result.Valid := by
    intro hv
    by_cases hnil : (GetPaymentsForBlock E nHeight block.nTime).1 = []
    · unfold Validate
      simp [hv, hnil]
    · rw [validate_eq_foldl E block nHeight _ (Prod.ext rfl hv) hnil]
      apply foldl_validateStep_keep
      rintro ⟨s, hs, h0, hnone⟩
      obtain ⟨o, ho, hm⟩ := hmatched hv s hs (by omega)
      exact (find_eq_none_iff _ s).mp hnone o ho hm
  have hnoReward : (GetPaymentsForBlock E nHeight block.nTime).2 = Result.NoRewardBlock →
      (Validate E block nHeight).1 = Result.Valid := by
    intro hn
    unfold Validate
    simp [hn]
  refine ⟨?_, ?_, hmatched⟩
  · rcases getPayments_verdicts E nHeight block.nTime with hv | hn | hd
    · rw [hvalid hv]; decide
    · rw [hnoReward hn]; decide
    · have : Validate E block nHeight = (Result.DatabaseError, 0) := by
        unfold Validate
        simp [hd]
      rw [this]; decide
  · rintro (hv | hn)
    · exact hvalid hv
    · exact hnoReward hn

/-- Witness of C19: at height 222 of `sampleEnv`, `FillPayments` turns a
coinbase with one output into one with four, and a block with that coinbase is
found `Valid` with verified amount 150. -/
theorem fill_then_validate_witness :
    (@FillPayments orderByScript sampleEnv ⟨[⟨5000, [77]⟩]⟩ 222 0 []).1.vout =
      [⟨5000, [77]⟩, ⟨40, [4]⟩, ⟨50, [5]⟩, ⟨60, [6]⟩] ∧
    (@Validate orderByScript sampleEnv
      ⟨1, [⟨[⟨5000, [77]⟩, ⟨40, [4]⟩, ⟨50, [5]⟩, ⟨60, [6]⟩]⟩]⟩ 222).1 = Result.Valid ∧
    @Validate orderByScript sampleEnv
      ⟨1, [⟨[⟨5000, [77]⟩, ⟨40, [4]⟩, ⟨50, [5]⟩, ⟨60, [6]⟩]⟩]⟩ 222 = (Result.Valid, 150) :=
  ⟨by decide,
   (@fill_then_validate orderByScript sampleEnv ⟨[⟨5000, [77]⟩]⟩ 222 0 []
      ⟨1, [⟨[⟨5000, [77]⟩, ⟨40, [4]⟩, ⟨50, [5]⟩, ⟨60, [6]⟩]⟩]⟩ (by decide)).2.1
      (Or.inl (by decide)),
   by decide⟩

end SmartRewardPayments
